import Mathlib

/-!
Shallow embedding of `src/circuit_proof/verifier.rs` from webb-tools/bulletproofs:
the verifier-side R1CS constraint system (`VerifierCS` / `CommittedVerifierCS`),
constraint flattening, and the single multiscalar "mega-check" equation.

Modelling conventions:

* The scalar field of the Ristretto group is an arbitrary `Field F`; the group
  itself is an arbitrary `F`-module `G`.  An `OpaqueScalar` coefficient is
  modelled by its underlying scalar (`coeff.internal_scalar` in the source).
* A compressed Ristretto point is modelled as `Option G`: `some P` decompresses
  to `P`, `none` is a malformed encoding whose decompression fails.  The source
  only ever decompresses compressed points, so this captures their whole use.
* The Merlin transcript is modelled by the list of absorb/challenge events that
  have been performed on it, together with an `Oracle` that assigns challenge
  values (and the inner-product subverifier's answers, and the transcript-RNG
  output mixed with OS randomness) to transcript states.
* Rust `Vec` indexing with a possibly out-of-range index (which panics) is
  modelled with `Option`: `none` is the panic.
-/

set_option maxHeartbeats 1000000

namespace BulletproofsVerifier

/-- `VariableIndex` from the shared circuit-proof API (`super::VariableIndex`,
matched on in `flattened_constraints`): the five kinds of wires. -/
inductive VariableIndex where
  | MultiplierLeft (i : ℕ)
  | MultiplierRight (i : ℕ)
  | MultiplierOutput (i : ℕ)
  | Committed (i : ℕ)
  | One

deriving instance DecidableEq for VariableIndex

/-- A `Constraint` is a linear combination (a list of `(VariableIndex, OpaqueScalar)`
terms) asserted to equal zero; the source reads `lc.terms` in
`flattened_constraints`.  The coefficient is the opaque scalar's
`internal_scalar`. -/
structure Constraint (F : Type) where
  terms : List (VariableIndex × F)

deriving instance DecidableEq for Constraint

/-- Modelled from the spec: the error enum `R1CSError` (the source's `errors`
module is not under `src/`; `verifier.rs` uses the variants
`InvalidGeneratorsLength` and `VerificationError`, and callbacks return
arbitrary `R1CSError`s; spec section 7 lists the closed taxonomy). -/
inductive R1CSError where
  | InvalidGeneratorsLength
  | VerificationError
  | FormatError
  | GadgetError

deriving instance DecidableEq for R1CSError

/-- A `Variable` as returned by the constraint-system API: an index paired with
an `Assignment` (modelled as `Option F`; `none` is `Assignment::Missing`, which
is all the verifier ever holds). -/
structure Variable (F : Type) where
  index : VariableIndex
  assignment : Option F

deriving instance DecidableEq for Variable

/-- One absorb-or-challenge event on the Merlin transcript.  `commitPoint`
records the compressed point that was absorbed, `commitScalar` the scalar,
`challenge` only the label (the produced value is determined by the oracle
from the events before it). -/
inductive Event (F G : Type) where
  | domSep (m : ℕ)
  | commitPoint (label : String) (p : Option G)
  | commitScalar (label : String) (s : F)
  | challenge (label : String)

deriving instance DecidableEq for Event

/-- The transcript labels used by `verifier.rs` (exact bytes). -/
def labV : String := "V"

def labAI : String := "A_I"

def labAO : String := "A_O"

def labS : String := "S"

def labT1 : String := "T_1"

def labT3 : String := "T_3"

def labT4 : String := "T_4"

def labT5 : String := "T_5"

def labT6 : String := "T_6"

def labTx : String := "t_x"

def labTxBlinding : String := "t_x_blinding"

def labEBlinding : String := "e_blinding"

def labY : String := "y"

def labZ : String := "z"

def labX : String := "x"

def labW : String := "w"

/-- The embedded `InnerProductProof`: the two compressed point vectors and the
two closing scalars (consumed as a black box apart from `a`, `b`, `L_vec`,
`R_vec`; its `verification_scalars` lives behind `Oracle.ippVS`). -/
structure InnerProductProof (F G : Type) where
  L_vec : List (Option G)
  R_vec : List (Option G)
  a : F
  b : F

/-- `R1CSProof`: the commitments and scalars consumed by `verify`. -/
structure R1CSProof (F G : Type) where
  A_I : Option G
  A_O : Option G
  S : Option G
  T_1 : Option G
  T_3 : Option G
  T_4 : Option G
  T_5 : Option G
  T_6 : Option G
  t_x : F
  t_x_blinding : F
  e_blinding : F
  ipp_proof : InnerProductProof F G

/-- The deterministic environment of a transcript: challenge values as a
function of the transcript state, the inner-product subverifier's
`verification_scalars` (returning `(u_sq, u_inv_sq, s)` and the events it
appends to the transcript), and the value sampled from the transcript RNG
(which also folds in the OS entropy that `thread_rng` contributes). -/
structure Oracle (F G : Type) where
  chal : List (Event F G) → String → F
  ippVS : InnerProductProof F G → List (Event F G) → (List F × List F × List F) × List (Event F G)
  rnd : List (Event F G) → F

/-- `BulletproofGens`: the capacity together with the party-0 share's
generator streams (`gens.G(n)` / `gens.H(n)` yield the first `n` entries). -/
structure BulletproofGens (G : Type) where
  gens_capacity : ℕ
  Gv : ℕ → G
  Hv : ℕ → G

/-- `PedersenGens`: the two Pedersen bases. -/
structure PedersenGens (G : Type) where
  B : G
  B_blinding : G

/-- The committed-state constraint system (`CommittedVerifierCS`): the wrapped
`VerifierCS` data (generators, transcript, constraints, multiplier count,
external commitments) plus `committed_variables_count`.  The callback vector
is not carried: the source empties it (`mem::replace`) when the committed
state is constructed, and the committed-state `after_commitment` never stores
callbacks. -/
structure CommittedVerifierCS (F G : Type) where
  bp_gens : BulletproofGens G
  pc_gens : PedersenGens G
  events : List (Event F G)
  constraints : List (Constraint F)
  num_vars : ℕ
  V : List (Option G)
  committed_variables_count : ℕ

/-- The pre-commitment constraint system (`VerifierCS`).  A registered
callback is a state transformer on the committed state, as in the source
(`Fn(&mut CommittedVerifierCS) -> Result<(), R1CSError>`). -/
structure VerifierCS (F G : Type) where
  bp_gens : BulletproofGens G
  pc_gens : PedersenGens G
  events : List (Event F G)
  constraints : List (Constraint F)
  num_vars : ℕ
  V : List (Option G)
  callbacks : List (CommittedVerifierCS F G → Except R1CSError (CommittedVerifierCS F G))

variable {F G : Type}

/-- `VerifierCS::new`: domain-separates the transcript with the commitment
count, absorbs each commitment under label `"V"`, and returns the constraint
system together with one `Committed(i)` variable per commitment. -/
def VerifierCS.new (bp_gens : BulletproofGens G) (pc_gens : PedersenGens G)
    (transcript : List (Event F G)) (commitments : List (Option G)) :
    VerifierCS F G × List (Variable F) :=
  let m := commitments.length
  ({ bp_gens := bp_gens
     pc_gens := pc_gens
     events := transcript ++ Event.domSep m :: commitments.map (fun c => Event.commitPoint labV c)
     constraints := []
     num_vars := 0
     V := commitments
     callbacks := [] },
   (List.range m).map (fun i => { index := VariableIndex.Committed i, assignment := none }))

/-- `ConstraintSystem::assign_multiplier` for `VerifierCS`: allocates the next
multiplier index and returns the three wires (the source wraps the triple in
`Ok`, but no error is ever produced). -/
def VerifierCS.assign_multiplier (cs : VerifierCS F G) (left right out : Option F) :
    (Variable F × Variable F × Variable F) × VerifierCS F G :=
  let var := cs.num_vars
  (({ index := VariableIndex.MultiplierLeft var, assignment := left },
    { index := VariableIndex.MultiplierRight var, assignment := right },
    { index := VariableIndex.MultiplierOutput var, assignment := out }),
   { cs with num_vars := cs.num_vars + 1 })

/-- `ConstraintSystem::add_constraint` for `VerifierCS`: pushes the constraint. -/
def VerifierCS.add_constraint (cs : VerifierCS F G) (constraint : Constraint F) :
    VerifierCS F G :=
  { cs with constraints := cs.constraints ++ [constraint] }

/-- `ConstraintSystem::after_commitment` for `VerifierCS`: pushes the callback
and returns `Ok`. -/
def VerifierCS.after_commitment (cs : VerifierCS F G)
    (callback : CommittedVerifierCS F G → Except R1CSError (CommittedVerifierCS F G)) :
    Except R1CSError (VerifierCS F G) :=
  Except.ok { cs with callbacks := cs.callbacks ++ [callback] }

/-- The committed state built at the start of `VerifierCS::commit`, before the
drained callbacks run: the same data with `committed_variables_count` frozen at
the current `num_vars`. -/
def VerifierCS.startCommit (cs : VerifierCS F G) : CommittedVerifierCS F G :=
  { bp_gens := cs.bp_gens
    pc_gens := cs.pc_gens
    events := cs.events
    constraints := cs.constraints
    num_vars := cs.num_vars
    V := cs.V
    committed_variables_count := cs.num_vars }

/-- Running a list of drained callbacks in order over the committed state,
aborting at the first error (the `for closure in closures.drain(..)` loop with
`?`). -/
def runCallbacks (fs : List (CommittedVerifierCS F G → Except R1CSError (CommittedVerifierCS F G)))
    (st : CommittedVerifierCS F G) : Except R1CSError (CommittedVerifierCS F G) :=
  fs.foldlM (fun s f => f s) st

/-- `VerifierCS::commit`: constructs the committed state (the TBD intermediate
commitments are neither created nor sent to the transcript in the source),
takes the callbacks out, and runs each in order, aborting on error. -/
def VerifierCS.commit (cs : VerifierCS F G) : Except R1CSError (CommittedVerifierCS F G) :=
  runCallbacks cs.callbacks cs.startCommit

/-- `ConstraintSystem::assign_multiplier` for `CommittedVerifierCS` (delegates
to the inner `VerifierCS` logic). -/
def CommittedVerifierCS.assign_multiplier (st : CommittedVerifierCS F G)
    (left right out : Option F) :
    (Variable F × Variable F × Variable F) × CommittedVerifierCS F G :=
  let var := st.num_vars
  (({ index := VariableIndex.MultiplierLeft var, assignment := left },
    { index := VariableIndex.MultiplierRight var, assignment := right },
    { index := VariableIndex.MultiplierOutput var, assignment := out }),
   { st with num_vars := st.num_vars + 1 })

/-- `ConstraintSystem::add_constraint` for `CommittedVerifierCS`. -/
def CommittedVerifierCS.add_constraint (st : CommittedVerifierCS F G)
    (constraint : Constraint F) : CommittedVerifierCS F G :=
  { st with constraints := st.constraints ++ [constraint] }

/-- `ConstraintSystem::after_commitment` for `CommittedVerifierCS`: runs the
callback synchronously on itself. -/
def CommittedVerifierCS.after_commitment (st : CommittedVerifierCS F G)
    (callback : CommittedVerifierCS F G → Except R1CSError (CommittedVerifierCS F G)) :
    Except R1CSError (CommittedVerifierCS F G) :=
  callback st

/-- `CommittedConstraintSystem::challenge_scalar`: draws a labelled challenge
from the transcript (the value, and the transcript with the challenge event
recorded). -/
def CommittedVerifierCS.challenge_scalar (o : Oracle F G) (st : CommittedVerifierCS F G)
    (label : String) : F × CommittedVerifierCS F G :=
  (o.chal st.events label, { st with events := st.events ++ [Event.challenge label] })

/-- The weight vectors returned by `flattened_constraints` (the source returns
the tuple `(wL, wR, wO, wV, wc)`). -/
structure Flattened (F : Type) where
  wL : List F
  wR : List F
  wO : List F
  wV : List F
  wc : F

deriving instance DecidableEq for Flattened

variable [Field F] [AddCommGroup G] [Module F G]

/-- One `+=` on a vector entry: `v[i] += x`, with `none` modelling the panic
when `i` is out of bounds. -/
def addAt (v : List F) (i : ℕ) (x : F) : Option (List F) :=
  if h : i < v.length then some (v.set i (v.get ⟨i, h⟩ + x)) else none

/-- One `-=` on a vector entry: `v[i] -= x`, with `none` modelling the panic
when `i` is out of bounds. -/
def subAt (v : List F) (i : ℕ) (x : F) : Option (List F) :=
  if h : i < v.length then some (v.set i (v.get ⟨i, h⟩ - x)) else none

/-- The body of the `match var` in `flattened_constraints`, applied to one term
`(var, coeff)` with the current `exp_z`. -/
def applyTerm (exp_z : F) (w : Flattened F) (t : VariableIndex × F) : Option (Flattened F) :=
  match t.1 with
  | VariableIndex.MultiplierLeft i =>
      (addAt w.wL i (exp_z * t.2)).map (fun wL => { w with wL := wL })
  | VariableIndex.MultiplierRight i =>
      (addAt w.wR i (exp_z * t.2)).map (fun wR => { w with wR := wR })
  | VariableIndex.MultiplierOutput i =>
      (addAt w.wO i (exp_z * t.2)).map (fun wO => { w with wO := wO })
  | VariableIndex.Committed i =>
      (subAt w.wV i (exp_z * t.2)).map (fun wV => { w with wV := wV })
  | VariableIndex.One => some { w with wc := w.wc - exp_z * t.2 }

/-- `CommittedVerifierCS::flattened_constraints`: walk the constraints in
insertion order, with `exp_z` starting at `z` and multiplied by `z` after each
constraint; each term updates one weight-vector entry.  `none` models the
out-of-bounds indexing panic. -/
def CommittedVerifierCS.flattened_constraints (st : CommittedVerifierCS F G) (z : F) :
    Option (Flattened F) := do
  let n := st.num_vars
  let m := st.V.length
  let w0 : Flattened F :=
    { wL := List.replicate n 0
      wR := List.replicate n 0
      wO := List.replicate n 0
      wV := List.replicate m 0
      wc := 0 }
  let result ← st.constraints.foldlM
    (fun (acc : Flattened F × F) lc => do
      let w ← lc.terms.foldlM (fun w t => applyTerm acc.2 w t) acc.1
      pure (w, acc.2 * z))
    (w0, z)
  pure result.1

/-- Rust `usize::next_power_of_two`: the smallest power of two greater than or
equal to the argument, with `next_power_of_two 0 = 1`.  (Lean rendering with a
fuel counter; the accumulator doubles from 1 until it reaches `n`, which takes
at most `n` steps.) -/
def npotAux : ℕ → ℕ → ℕ → ℕ
  | 0, _, p => p
  | fuel + 1, n, p => if n ≤ p then p else npotAux fuel n (2 * p)

/-- Rust `usize::next_power_of_two` (see `npotAux`). -/
def nextPowTwo (n : ℕ) : ℕ := npotAux n n 1

/-- `inner_product` from `inner_product_proof.rs`: the sum of the pointwise
products (the source panics when the lengths differ; the single call site uses
two length-`n` slices). -/
def innerProduct (a b : List F) : F := (List.zipWith (fun x y => x * y) a b).sum

/-- Collecting an iterator of optional points (`collect::<Option<Vec<_>>>`):
`none` as soon as any entry is `none`. -/
def allSome {α : Type} : List (Option α) → Option (List α)
  | [] => some []
  | none :: _ => none
  | some x :: l => (allSome l).map (fun xs => x :: xs)

/-- `RistrettoPoint::optional_multiscalar_mul`: `none` as soon as any point
fails to decompress, and otherwise the multiscalar multiplication. -/
def optionalMSM (scalars : List F) (points : List (Option G)) : Option G :=
  (allSome points).map (fun ps => (List.zipWith (fun c p => c • p) scalars ps).sum)

section Verify

variable [DecidableEq G]

/-- Transcript state after `verify` absorbs `A_I`, `A_O`, `S`
(verifier.rs lines 279-281). -/
def eventsAIS (st : CommittedVerifierCS F G) (proof : R1CSProof F G) : List (Event F G) :=
  st.events ++ [Event.commitPoint labAI proof.A_I, Event.commitPoint labAO proof.A_O,
    Event.commitPoint labS proof.S]

/-- The challenge `y` (line 283). -/
def yChal (o : Oracle F G) (st : CommittedVerifierCS F G) (proof : R1CSProof F G) : F :=
  o.chal (eventsAIS st proof) labY

/-- Transcript state after the challenge `y`. -/
def eventsY (st : CommittedVerifierCS F G) (proof : R1CSProof F G) : List (Event F G) :=
  eventsAIS st proof ++ [Event.challenge labY]

/-- The challenge `z` (line 284). -/
def zChal (o : Oracle F G) (st : CommittedVerifierCS F G) (proof : R1CSProof F G) : F :=
  o.chal (eventsY st proof) labZ

/-- Transcript state after the challenge `z`. -/
def eventsZ (st : CommittedVerifierCS F G) (proof : R1CSProof F G) : List (Event F G) :=
  eventsY st proof ++ [Event.challenge labZ]

/-- Transcript state after `verify` absorbs `T_1, T_3, T_4, T_5, T_6`
(lines 286-290). -/
def eventsT (st : CommittedVerifierCS F G) (proof : R1CSProof F G) : List (Event F G) :=
  eventsZ st proof ++ [Event.commitPoint labT1 proof.T_1, Event.commitPoint labT3 proof.T_3,
    Event.commitPoint labT4 proof.T_4, Event.commitPoint labT5 proof.T_5,
    Event.commitPoint labT6 proof.T_6]

/-- The challenge `x` (line 292). -/
def xChal (o : Oracle F G) (st : CommittedVerifierCS F G) (proof : R1CSProof F G) : F :=
  o.chal (eventsT st proof) labX

/-- Transcript state after the challenge `x`. -/
def eventsX (st : CommittedVerifierCS F G) (proof : R1CSProof F G) : List (Event F G) :=
  eventsT st proof ++ [Event.challenge labX]

/-- Transcript state after `verify` absorbs `t_x`, `t_x_blinding`, `e_blinding`
(lines 294-298). -/
def eventsTx (st : CommittedVerifierCS F G) (proof : R1CSProof F G) : List (Event F G) :=
  eventsX st proof ++ [Event.commitScalar labTx proof.t_x,
    Event.commitScalar labTxBlinding proof.t_x_blinding,
    Event.commitScalar labEBlinding proof.e_blinding]

/-- The challenge `w` (line 300). -/
def wChal (o : Oracle F G) (st : CommittedVerifierCS F G) (proof : R1CSProof F G) : F :=
  o.chal (eventsTx st proof) labW

/-- Transcript state after the challenge `w`. -/
def eventsW (st : CommittedVerifierCS F G) (proof : R1CSProof F G) : List (Event F G) :=
  eventsTx st proof ++ [Event.challenge labW]

/-- The inner-product subverifier's `verification_scalars` answer
`((u_sq, u_inv_sq, s), events appended)` (line 305). -/
def ippAnswer (o : Oracle F G) (st : CommittedVerifierCS F G) (proof : R1CSProof F G) :
    (List F × List F × List F) × List (Event F G) :=
  o.ippVS proof.ipp_proof (eventsW st proof)

/-- The `u_sq` component of `verification_scalars`. -/
def ippUsq (o : Oracle F G) (st : CommittedVerifierCS F G) (proof : R1CSProof F G) : List F :=
  (ippAnswer o st proof).1.1

/-- The `u_inv_sq` component of `verification_scalars`. -/
def ippUinvsq (o : Oracle F G) (st : CommittedVerifierCS F G) (proof : R1CSProof F G) : List F :=
  (ippAnswer o st proof).1.2.1

/-- The `s` component of `verification_scalars`. -/
def ippS (o : Oracle F G) (st : CommittedVerifierCS F G) (proof : R1CSProof F G) : List F :=
  (ippAnswer o st proof).1.2.2

/-- Transcript state after the inner-product subverifier has consumed its own
challenges. -/
def eventsIpp (o : Oracle F G) (st : CommittedVerifierCS F G) (proof : R1CSProof F G) :
    List (Event F G) :=
  eventsW st proof ++ (ippAnswer o st proof).2

/-- The randomization scalar `r`, sampled from the RNG built from the
transcript and mixed with `thread_rng` (lines 339-341). -/
def rSample (o : Oracle F G) (st : CommittedVerifierCS F G) (proof : R1CSProof F G) : F :=
  o.rnd (eventsIpp o st proof)

/-- The scalar list of the mega-check multiscalar multiplication (lines
310-364), in the iterator order of the source: `x, xx, xxx`, the `V`
scalars, the five `T` scalars, the `B` and `B_blinding` scalars, `g_scalars`,
`h_scalars`, `u_sq`, `u_inv_sq`. -/
def megaScalars (o : Oracle F G) (st : CommittedVerifierCS F G) (proof : R1CSProof F G)
    (fl : Flattened F) : List F :=
  let n := st.num_vars
  let padded_n := nextPowTwo st.num_vars
  let pad := padded_n - n
  let x := xChal o st proof
  let w := wChal o st proof
  let r := rSample o st proof
  let a := proof.ipp_proof.a
  let b := proof.ipp_proof.b
  let y_inv := (yChal o st proof)⁻¹
  let y_inv_vec := (List.range padded_n).map (fun i => y_inv ^ i)
  let yneg_wR := List.zipWith (fun wRi exp_y_inv => wRi * exp_y_inv) fl.wR y_inv_vec
    ++ List.replicate pad 0
  let delta := innerProduct (yneg_wR.take n) fl.wL
  let s := ippS o st proof
  let g_scalars := List.zipWith (fun yneg_wRi s_i => x * yneg_wRi - a * s_i)
    yneg_wR (s.take padded_n)
  let h_scalars := List.zipWith
    (fun (p : F × F) (q : F × F) => p.1 * (x * q.1 + q.2 - b * p.2) - 1)
    (y_inv_vec.zip ((s.reverse).take padded_n))
    ((fl.wL ++ List.replicate pad 0).zip (fl.wO ++ List.replicate pad 0))
  let xx := x * x
  let rxx := r * xx
  let xxx := x * xx
  x :: xx :: xxx :: (fl.wV.map (fun wVi => wVi * rxx)
    ++ [r * x, rxx * x, rxx * xx, rxx * xxx, rxx * xx * xx]
    ++ [w * (proof.t_x - a * b) + r * (xx * (fl.wc + delta) - proof.t_x),
        -proof.e_blinding - r * proof.t_x_blinding]
    ++ g_scalars ++ h_scalars ++ ippUsq o st proof ++ ippUinvsq o st proof)

/-- The point list of the mega-check multiscalar multiplication (lines
365-375), in the iterator order of the source: `A_I, A_O, S`, the `V`
commitments, the five `T` commitments, `B`, `B_blinding`, the `G` and `H`
generator shares, `L_vec`, `R_vec`. -/
def megaPoints (st : CommittedVerifierCS F G) (proof : R1CSProof F G) : List (Option G) :=
  let padded_n := nextPowTwo st.num_vars
  proof.A_I :: proof.A_O :: proof.S :: (st.V
    ++ [proof.T_1, proof.T_3, proof.T_4, proof.T_5, proof.T_6]
    ++ [some st.pc_gens.B, some st.pc_gens.B_blinding]
    ++ (List.range padded_n).map (fun i => some (st.bp_gens.Gv i))
    ++ (List.range padded_n).map (fun i => some (st.bp_gens.Hv i))
    ++ proof.ipp_proof.L_vec ++ proof.ipp_proof.R_vec)

/-- Everything `verify` computes after the generator-capacity pre-check and
before the accept decision: the challenges, the flattened weights, the
inner-product verification scalars, the randomization scalar, the mega-check
scalar/point lists, and the final transcript. -/
structure VerifyData (F G : Type) where
  y : F
  z : F
  x : F
  w : F
  r : F
  fl : Flattened F
  u_sq : List F
  u_inv_sq : List F
  s : List F
  scalars : List F
  points : List (Option G)
  finalEvents : List (Event F G)

/-- Assembles the `VerifyData` of a run of `verify` (lines 279-375):
transcript interaction, flattening under `z`, the inner-product verification
scalars, the randomization scalar, and the two mega-check operand lists.
`none` models the panic of `flattened_constraints` on an out-of-range
index. -/
def CommittedVerifierCS.verifyData (o : Oracle F G) (st : CommittedVerifierCS F G)
    (proof : R1CSProof F G) : Option (VerifyData F G) :=
  match st.flattened_constraints (zChal o st proof) with
  | none => none
  | some fl =>
    some { y := yChal o st proof
           z := zChal o st proof
           x := xChal o st proof
           w := wChal o st proof
           r := rSample o st proof
           fl := fl
           u_sq := ippUsq o st proof
           u_inv_sq := ippUinvsq o st proof
           s := ippS o st proof
           scalars := megaScalars o st proof fl
           points := megaPoints st proof
           finalEvents := eventsIpp o st proof }

/-- The accept decision (lines 377-385): reject with `VerificationError` when
the multiscalar multiplication hits a failed decompression, accept exactly when
the resulting point is the identity. -/
def verifyVerdict (d : VerifyData F G) : Except R1CSError Unit :=
  match optionalMSM d.scalars d.points with
  | none => Except.error R1CSError.VerificationError
  | some p => if p = 0 then Except.ok () else Except.error R1CSError.VerificationError

/-- `CommittedVerifierCS::verify`: the generator-capacity pre-check (lines
273-275, before any transcript interaction), then the transcript protocol,
flattening, and the mega-check.  The result is the verdict paired with the
final transcript state; `none` models the flattening panic. -/
def CommittedVerifierCS.verify (o : Oracle F G) (st : CommittedVerifierCS F G)
    (proof : R1CSProof F G) : Option (Except R1CSError Unit × List (Event F G)) :=
  if st.bp_gens.gens_capacity < nextPowTwo st.num_vars then
    some (Except.error R1CSError.InvalidGeneratorsLength, st.events)
  else
    (st.verifyData o proof).map (fun d => (verifyVerdict d, d.finalEvents))

end Verify

section Gadgets

/-!
A small syntax of gadget programs over the constraint-system API, used to
quantify over "every sequence of CS operations built through the public API"
(including operations performed inside deferred callbacks).  `PostOp` is an
operation available on the committed state; a pre-commitment gadget may in
addition only register a post-commitment program as a deferred callback.
-/

mutual

inductive PostOp (F : Type) where
  | assignMul (left right out : Option F)
  | addConstr (c : Constraint F)
  | chal (label : String)
  | afterCommit (prog : PostProg F)

inductive PostProg (F : Type) where
  | nil
  | cons (op : PostOp F) (rest : PostProg F)

end

/-- A pre-commitment gadget operation: `challenge_scalar` is not available
before the commitment transition (the Rust type system does not expose it on
`VerifierCS`), and `afterCommit` registers a deferred post-commitment
program. -/
inductive PreOp (F : Type) where
  | assignMul (left right out : Option F)
  | addConstr (c : Constraint F)
  | afterCommit (prog : PostProg F)

mutual

/-- Interpretation of one committed-state operation through the API of
`CommittedVerifierCS`.  `afterCommit` executes its program synchronously, as
`CommittedVerifierCS::after_commitment` runs its callback on `self`. -/
def runPostOp (o : Oracle F G) : PostOp F → CommittedVerifierCS F G → CommittedVerifierCS F G
  | PostOp.assignMul l r out, st => (st.assign_multiplier l r out).2
  | PostOp.addConstr c, st => st.add_constraint c
  | PostOp.chal label, st => (CommittedVerifierCS.challenge_scalar o st label).2
  | PostOp.afterCommit p, st => runPostProg o p st

/-- Interpretation of a committed-state program, operation by operation. -/
def runPostProg (o : Oracle F G) : PostProg F → CommittedVerifierCS F G → CommittedVerifierCS F G
  | PostProg.nil, st => st
  | PostProg.cons op rest, st => runPostProg o rest (runPostOp o op st)

end

/-- The callback registered for a deferred post-commitment program: it runs
the program and returns `Ok`, as a gadget whose body is made of total API
calls does. -/
def progCallback (o : Oracle F G) (p : PostProg F) :
    CommittedVerifierCS F G → Except R1CSError (CommittedVerifierCS F G) :=
  fun st => Except.ok (runPostProg o p st)

/-- Interpretation of one pre-commitment operation through the API of
`VerifierCS`. -/
def runPreOp (o : Oracle F G) : PreOp F → VerifierCS F G → VerifierCS F G
  | PreOp.assignMul l r out, cs => (cs.assign_multiplier l r out).2
  | PreOp.addConstr c, cs => cs.add_constraint c
  | PreOp.afterCommit p, cs =>
      match cs.after_commitment (progCallback o p) with
      | Except.ok cs' => cs'
      | Except.error _ => cs

/-- Interpretation of a pre-commitment program. -/
def runPreProg (o : Oracle F G) : List (PreOp F) → VerifierCS F G → VerifierCS F G
  | [], cs => cs
  | op :: rest, cs => runPreProg o rest (runPreOp o op cs)

/-- Whether a variable index is in scope when `k` multipliers have been
allocated and there are `m` external commitments. -/
def indexInScope (k m : ℕ) : VariableIndex → Bool
  | VariableIndex.MultiplierLeft i => i < k
  | VariableIndex.MultiplierRight i => i < k
  | VariableIndex.MultiplierOutput i => i < k
  | VariableIndex.Committed i => i < m
  | VariableIndex.One => true

/-- Whether every term of a constraint is in scope for `k` multipliers and `m`
commitments. -/
def Constraint.inScope (c : Constraint F) (k m : ℕ) : Bool :=
  c.terms.all (fun t => indexInScope k m t.1)

/-- Scope checking of a committed-state program: starting from `k` allocated
multipliers (with `m` commitments), every added constraint only uses variables
already returned by the API; returns the final multiplier count. -/
def PostProg.scopedFrom : PostProg F → ℕ → ℕ → Option ℕ
  | PostProg.nil, k, _ => some k
  | PostProg.cons (PostOp.assignMul _ _ _) rest, k, m => rest.scopedFrom (k + 1) m
  | PostProg.cons (PostOp.addConstr c) rest, k, m =>
      if c.inScope k m then rest.scopedFrom k m else none
  | PostProg.cons (PostOp.chal _) rest, k, m => rest.scopedFrom k m
  | PostProg.cons (PostOp.afterCommit q) rest, k, m =>
      match q.scopedFrom k m with
      | none => none
      | some k' => rest.scopedFrom k' m

/-- Scope checking of a pre-commitment program: returns the multiplier count
at commit time together with the deferred programs in registration order
(their own scope is checked at commit time, when they run). -/
def preScoped : List (PreOp F) → ℕ → ℕ → Option (ℕ × List (PostProg F))
  | [], k, _ => some (k, [])
  | PreOp.assignMul _ _ _ :: rest, k, m => preScoped rest (k + 1) m
  | PreOp.addConstr c :: rest, k, m =>
      if c.inScope k m then preScoped rest k m else none
  | PreOp.afterCommit q :: rest, k, m =>
      (preScoped rest k m).map (fun r => (r.1, q :: r.2))

/-- Scope checking of the deferred programs, threaded in registration order
from the commit-time multiplier count. -/
def scopedList (qs : List (PostProg F)) (k m : ℕ) : Option ℕ :=
  qs.foldlM (fun j q => q.scopedFrom j m) k

/-- The full API pipeline of the verifier lifecycle: `new`, a pre-commitment
gadget program, the `commit` transition (running the deferred callbacks), and
a final committed-state gadget program. -/
def buildCommitted (o : Oracle F G) (bp : BulletproofGens G) (pc : PedersenGens G)
    (transcript : List (Event F G)) (commitments : List (Option G))
    (pre : List (PreOp F)) (post : PostProg F) :
    Except R1CSError (CommittedVerifierCS F G) :=
  (VerifierCS.commit (runPreProg o pre (VerifierCS.new bp pc transcript commitments).1)).map
    (fun st => runPostProg o post st)

end Gadgets

deriving instance DecidableEq for VerifyData

/-- The total coefficient a term list puts on one variable index (duplicated
indices accumulate additively). -/
def termWeight (idx : VariableIndex) (terms : List (VariableIndex × F)) : F :=
  ((terms.filter (fun t => decide (t.1 = idx))).map (fun t => t.2)).sum

section Fixtures

/-!
Concrete instances over `K = ZMod 101` (with scalar multiplication of the
module `K` over itself being multiplication), used to evaluate the
definitions on closed inputs.  The fixtures keep `num_vars ≤ 1` so that the
single entry of `y_inv_vec` is `y⁻¹ ^ 0 = 1`.
-/

instance : Fact (Nat.Prime 101) := ⟨by norm_num⟩

/-- The concrete scalar field of the fixtures. -/
abbrev K : Type := ZMod 101

/-- An extra transcript label for the fixture inner-product subverifier. -/
def labIpp : String := "ippchal"

/-- A concrete deterministic oracle. -/
def oEx : Oracle K K :=
  { chal := fun _ lab =>
      if lab = labY then 1 else if lab = labZ then 2 else if lab = labX then 3 else 5
    ippVS := fun _ _ => (([9], [11], [13]), [Event.challenge labIpp])
    rnd := fun _ => 7 }

/-- Concrete generators. -/
def bpEx : BulletproofGens K :=
  { gens_capacity := 4, Gv := fun i => (90 : K) + i, Hv := fun i => (95 : K) + i }

/-- Concrete Pedersen bases. -/
def pcEx : PedersenGens K :=
  { B := 50, B_blinding := 51 }

/-- A concrete committed verifier state with one multiplier, one external
commitment and two constraints, the first of which repeats an index. -/
def stEx : CommittedVerifierCS K K :=
  { bp_gens := bpEx
    pc_gens := pcEx
    events := []
    constraints := [{ terms := [(VariableIndex.MultiplierLeft 0, 1),
        (VariableIndex.Committed 0, 3), (VariableIndex.One, 4),
        (VariableIndex.MultiplierLeft 0, 5)] },
      { terms := [(VariableIndex.MultiplierRight 0, 2),
        (VariableIndex.MultiplierOutput 0, 6)] }]
    num_vars := 1
    V := [some 7]
    committed_variables_count := 1 }

/-- A concrete committed verifier state with no multipliers and no
constraints. -/
def stZero : CommittedVerifierCS K K :=
  { bp_gens := bpEx
    pc_gens := pcEx
    events := []
    constraints := []
    num_vars := 0
    V := []
    committed_variables_count := 0 }

/-- A concrete proof object whose compressed points all decompress. -/
def proofEx : R1CSProof K K :=
  { A_I := some 31, A_O := some 32, S := some 33
    T_1 := some 41, T_3 := some 43, T_4 := some 44, T_5 := some 45, T_6 := some 46
    t_x := 51, t_x_blinding := 52, e_blinding := 53
    ipp_proof := { L_vec := [some 61], R_vec := [some 62], a := 71, b := 72 } }

/-- A default `VerifyData`, used only as the `Option.getD` fallback below. -/
def dDummy : VerifyData K K :=
  { y := 0, z := 0, x := 0, w := 0, r := 0
    fl := { wL := [], wR := [], wO := [], wV := [], wc := 0 }
    u_sq := [], u_inv_sq := [], s := []
    scalars := [], points := [], finalEvents := [] }

/-- The concrete `VerifyData` of `stEx` against `proofEx`. -/
def dEx : VerifyData K K :=
  (CommittedVerifierCS.verifyData oEx stEx proofEx).getD dDummy

/-- The concrete `VerifyData` of `stZero` against `proofEx`. -/
def dZero : VerifyData K K :=
  (CommittedVerifierCS.verifyData oEx stZero proofEx).getD dDummy

/-- A concrete pre-commitment verifier state with no callbacks. -/
def csEx : VerifierCS K K :=
  { bp_gens := bpEx
    pc_gens := pcEx
    events := []
    constraints := []
    num_vars := 0
    V := []
    callbacks := [] }

/-- A callback that succeeds without changing the state. -/
def cbOk : CommittedVerifierCS K K → Except R1CSError (CommittedVerifierCS K K) :=
  fun s => Except.ok s

/-- A callback that fails with a gadget error. -/
def cbFail : CommittedVerifierCS K K → Except R1CSError (CommittedVerifierCS K K) :=
  fun _ => Except.error R1CSError.GadgetError

/-- A concrete deferred post-commitment program: allocate one multiplier and
add a constraint on it and the external commitment. -/
def postQEx : PostProg K :=
  PostProg.cons (PostOp.assignMul none none none)
    (PostProg.cons (PostOp.addConstr { terms := [(VariableIndex.MultiplierRight 1, 2),
      (VariableIndex.Committed 0, 3)] }) PostProg.nil)

/-- A concrete pre-commitment program: allocate a multiplier, constrain it,
and register `postQEx` as a deferred callback. -/
def preEx : List (PreOp K) :=
  [PreOp.assignMul none none none,
   PreOp.addConstr { terms := [(VariableIndex.MultiplierLeft 0, 1)] },
   PreOp.afterCommit postQEx]

/-- A concrete committed-state program: draw a challenge and add a constant
constraint. -/
def postEx : PostProg K :=
  PostProg.cons (PostOp.chal labY)
    (PostProg.cons (PostOp.addConstr { terms := [(VariableIndex.One, 1)] }) PostProg.nil)

/-- A concrete committed verifier state whose generator capacity is too
small. -/
def stLow : CommittedVerifierCS K K :=
  { bp_gens := { gens_capacity := 0, Gv := fun i => (90 : K) + i, Hv := fun i => (95 : K) + i }
    pc_gens := pcEx
    events := [Event.domSep 0]
    constraints := []
    num_vars := 1
    V := []
    committed_variables_count := 1 }

/-- A concrete proof object whose `A_O` fails to decompress. -/
def proofBad : R1CSProof K K :=
  { proofEx with A_O := none }

end Fixtures

section ListHelpers

variable {α β γ : Type}

/-- Entries of `(List.range k).map f` through `getD`. -/
theorem getD_map_range (f : ℕ → α) (k i : ℕ) (d : α) :
    ((List.range k).map f).getD i d = if i < k then f i else d := by
  rcases lt_or_ge i k with h | h
  · rw [List.getD_eq_getElem?_getD, List.getElem?_map, List.getElem?_range h]
    simp [h]
  · rw [List.getD_eq_getElem?_getD, List.getElem?_map,
      List.getElem?_eq_none (by simpa using h)]
    simp [not_lt.mpr h]

/-- `zipWith` as a map over an index range, reading entries through `getD`. -/
theorem zipWith_eq_map_range (f : α → β → γ) (da : α) (db : β) :
    ∀ (l₁ : List α) (l₂ : List β),
      List.zipWith f l₁ l₂ =
        (List.range (min l₁.length l₂.length)).map
          (fun i => f (l₁.getD i da) (l₂.getD i db))
  | [], l₂ => by simp
  | a :: l₁, [] => by simp
  | a :: l₁, b :: l₂ => by
    have ih := zipWith_eq_map_range f da db l₁ l₂
    simp only [List.zipWith_cons_cons, List.length_cons, ih, Nat.succ_min_succ,
      List.range_succ_eq_map, List.map_cons, List.map_map]
    refine congrArg₂ _ rfl (List.map_congr_left ?_)
    intro i _
    simp [Function.comp]

/-- Reading any entry of a list padded on the right with the default returns
the same value as reading the unpadded list. -/
theorem getD_append_replicate (l : List α) (k i : ℕ) (d : α) :
    (l ++ List.replicate k d).getD i d = l.getD i d := by
  rcases lt_or_ge i l.length with h | h
  · exact List.getD_append l _ d i h
  · rw [List.getD_append_right l _ d i h]
    rw [List.getD_eq_getElem?_getD, List.getD_eq_getElem?_getD,
      List.getElem?_eq_none h, List.getElem?_replicate]
    by_cases hk : i - l.length < k <;> simp [hk]

/-- The sum of `(List.range k).map f` as a `Finset.range` sum. -/
theorem sum_map_range {M : Type} [AddCommMonoid M] (f : ℕ → M) :
    ∀ k : ℕ, ((List.range k).map f).sum = ∑ i ∈ Finset.range k, f i
  | 0 => by simp
  | k + 1 => by
    rw [List.range_succ, List.map_append, List.sum_append, Finset.sum_range_succ,
      sum_map_range f k]
    simp

/-- Reading an entry of a reversed list. -/
theorem getD_reverse (l : List α) (i : ℕ) (d : α) (h : i < l.length) :
    l.reverse.getD i d = l.getD (l.length - 1 - i) d := by
  rw [List.getD_eq_getElem?_getD, List.getD_eq_getElem?_getD, List.getElem?_reverse h]

/-- `allSome` fails as soon as the list contains `none`. -/
theorem allSome_eq_none : ∀ (l : List (Option α)), none ∈ l → allSome l = none
  | a :: l, h => by
    rcases List.mem_cons.mp h with h1 | h1
    · subst h1
      simp [allSome]
    · cases a <;> simp [allSome, allSome_eq_none l h1]

/-- The auxiliary loop of `nextPowTwo` does not fall short of `n` when given
enough fuel. -/
theorem npotAux_ge : ∀ (fuel n p : ℕ), 1 ≤ p → n ≤ fuel + p → n ≤ npotAux fuel n p
  | 0, n, p, _, h => by simpa [npotAux] using h
  | fuel + 1, n, p, hp, h => by
    by_cases hnp : n ≤ p
    · simp only [npotAux, if_pos hnp]
      exact hnp
    · have : n ≤ fuel + 2 * p := by omega
      simpa [npotAux, hnp] using npotAux_ge fuel n (2 * p) (by omega) this

/-- The auxiliary loop of `nextPowTwo` returns a positive value. -/
theorem npotAux_pos : ∀ (fuel n p : ℕ), 1 ≤ p → 1 ≤ npotAux fuel n p
  | 0, n, p, hp => by simp only [npotAux]; exact hp
  | fuel + 1, n, p, hp => by
    by_cases hnp : n ≤ p
    · simpa [npotAux, hnp] using hp
    · simpa [npotAux, hnp] using npotAux_pos fuel n (2 * p) (by omega)

/-- `nextPowTwo n` is at least `n`. -/
theorem le_nextPowTwo (n : ℕ) : n ≤ nextPowTwo n :=
  npotAux_ge n n 1 le_rfl (by omega)

/-- `nextPowTwo n` is positive. -/
theorem nextPowTwo_pos (n : ℕ) : 1 ≤ nextPowTwo n :=
  npotAux_pos n n 1 le_rfl


/-- A mapped range padded on the right with a constant, as a single map over
the padded range. -/
theorem map_range_append_replicate {α : Type} (f : ℕ → α) (c : α) (k K : ℕ) (hk : k ≤ K) :
    (List.range k).map f ++ List.replicate (K - k) c =
      (List.range K).map (fun i => if i < k then f i else c) := by
  apply List.ext_getElem?
  intro i
  rw [List.getElem?_append, List.length_map, List.length_range]
  by_cases h1 : i < k
  · rw [if_pos h1, List.getElem?_map, List.getElem?_range h1, List.getElem?_map,
      List.getElem?_range (lt_of_lt_of_le h1 hk)]
    simp [h1]
  · rw [if_neg h1, List.getElem?_replicate, List.getElem?_map]
    by_cases h2 : i < K
    · rw [List.getElem?_range h2, if_pos (by omega)]
      simp [h1]
    · rw [List.getElem?_eq_none (by simpa using h2), if_neg (by omega)]
      rfl

end ListHelpers

section FlattenLemmas

variable [Field F] [AddCommGroup G] [Module F G]

/-- Every entry of a replicated list reads back as the replicated value. -/
theorem getD_replicate_self {α : Type} (k i : ℕ) (d : α) :
    (List.replicate k d).getD i d = d := by
  rw [List.getD_eq_getElem?_getD, List.getElem?_replicate]
  by_cases h : i < k <;> simp [h]

/-- Characterization of `addAt` on an in-range index. -/
theorem addAt_spec (v : List F) (i : ℕ) (x : F) (h : i < v.length) :
    ∃ v', addAt v i x = some v' ∧ v'.length = v.length ∧
      ∀ j, v'.getD j 0 = v.getD j 0 + if i = j then x else 0 := by
  refine ⟨v.set i (v.get ⟨i, h⟩ + x), by simp [addAt, h], by simp, fun j => ?_⟩
  rw [List.getD_eq_getElem?_getD, List.getD_eq_getElem?_getD, List.getElem?_set]
  by_cases hij : i = j
  · subst hij
    simp [h, List.getElem?_eq_getElem h, List.get_eq_getElem]
  · simp [hij]

/-- Characterization of `subAt` on an in-range index. -/
theorem subAt_spec (v : List F) (i : ℕ) (x : F) (h : i < v.length) :
    ∃ v', subAt v i x = some v' ∧ v'.length = v.length ∧
      ∀ j, v'.getD j 0 = v.getD j 0 - if i = j then x else 0 := by
  refine ⟨v.set i (v.get ⟨i, h⟩ - x), by simp [subAt, h], by simp, fun j => ?_⟩
  rw [List.getD_eq_getElem?_getD, List.getD_eq_getElem?_getD, List.getElem?_set]
  by_cases hij : i = j
  · subst hij
    simp [h, List.getElem?_eq_getElem h, List.get_eq_getElem]
  · simp [hij]

/-- Characterization of one `flattened_constraints` term update: on an
in-scope term it succeeds, preserves the vector lengths, and adds (or
subtracts) `e * coeff` at exactly the indexed entry. -/
theorem applyTerm_spec (e : F) (w : Flattened F) (t : VariableIndex × F) (n m : ℕ)
    (hL : w.wL.length = n) (hR : w.wR.length = n) (hO : w.wO.length = n)
    (hV : w.wV.length = m) (ht : indexInScope n m t.1 = true) :
    ∃ w', applyTerm e w t = some w' ∧
      w'.wL.length = n ∧ w'.wR.length = n ∧ w'.wO.length = n ∧ w'.wV.length = m ∧
      (∀ j, w'.wL.getD j 0 = w.wL.getD j 0 +
        if t.1 = VariableIndex.MultiplierLeft j then e * t.2 else 0) ∧
      (∀ j, w'.wR.getD j 0 = w.wR.getD j 0 +
        if t.1 = VariableIndex.MultiplierRight j then e * t.2 else 0) ∧
      (∀ j, w'.wO.getD j 0 = w.wO.getD j 0 +
        if t.1 = VariableIndex.MultiplierOutput j then e * t.2 else 0) ∧
      (∀ j, w'.wV.getD j 0 = w.wV.getD j 0 -
        if t.1 = VariableIndex.Committed j then e * t.2 else 0) ∧
      w'.wc = w.wc - if t.1 = VariableIndex.One then e * t.2 else 0 := by
  obtain ⟨i, hi⟩ | ⟨i, hi⟩ | ⟨i, hi⟩ | ⟨i, hi⟩ | hi :
      (∃ i, t.1 = VariableIndex.MultiplierLeft i) ∨
      (∃ i, t.1 = VariableIndex.MultiplierRight i) ∨
      (∃ i, t.1 = VariableIndex.MultiplierOutput i) ∨
      (∃ i, t.1 = VariableIndex.Committed i) ∨ t.1 = VariableIndex.One := by
    cases h : t.1 <;> simp
  all_goals simp only [hi, indexInScope, decide_eq_true_eq] at ht ⊢
  · obtain ⟨v', hv', hlen, hget⟩ := addAt_spec w.wL i (e * t.2) (by omega)
    refine ⟨{ w with wL := v' }, by simp [applyTerm, hi, hv'], by simpa using by omega,
      hR, hO, hV, fun j => ?_, by simp, by simp, by simp, by simp⟩
    simpa [VariableIndex.MultiplierLeft.injEq] using hget j
  · obtain ⟨v', hv', hlen, hget⟩ := addAt_spec w.wR i (e * t.2) (by omega)
    refine ⟨{ w with wR := v' }, by simp [applyTerm, hi, hv'], hL, by simpa using by omega,
      hO, hV, by simp, fun j => ?_, by simp, by simp, by simp⟩
    simpa [VariableIndex.MultiplierRight.injEq] using hget j
  · obtain ⟨v', hv', hlen, hget⟩ := addAt_spec w.wO i (e * t.2) (by omega)
    refine ⟨{ w with wO := v' }, by simp [applyTerm, hi, hv'], hL, hR,
      by simpa using by omega, hV, by simp, by simp, fun j => ?_, by simp, by simp⟩
    simpa [VariableIndex.MultiplierOutput.injEq] using hget j
  · obtain ⟨v', hv', hlen, hget⟩ := subAt_spec w.wV i (e * t.2) (by omega)
    refine ⟨{ w with wV := v' }, by simp [applyTerm, hi, hv'], hL, hR, hO,
      by simpa using by omega, by simp, by simp, by simp, fun j => ?_, by simp⟩
    simpa [VariableIndex.Committed.injEq] using hget j
  · exact ⟨{ w with wc := w.wc - e * t.2 }, by simp [applyTerm, hi], hL, hR, hO, hV,
      by simp, by simp, by simp, by simp, by simp⟩


/-- Splitting `termWeight` over a cons. -/
theorem termWeight_cons [Field F] (idx : VariableIndex) (t : VariableIndex × F)
    (ts : List (VariableIndex × F)) :
    termWeight idx (t :: ts) = (if t.1 = idx then t.2 else 0) + termWeight idx ts := by
  unfold termWeight
  rw [List.filter_cons]
  by_cases h : t.1 = idx <;> simp [h]

/-- Characterization of the inner `flattened_constraints` fold over the terms
of one constraint: the weight of each index accumulates additively, scaled by
the current power of `z`. -/
theorem foldTerms_spec (e : F) (n m : ℕ) :
    ∀ (terms : List (VariableIndex × F)) (w : Flattened F),
      (∀ t ∈ terms, indexInScope n m t.1 = true) →
      w.wL.length = n → w.wR.length = n → w.wO.length = n → w.wV.length = m →
      ∃ w', terms.foldlM (fun w t => applyTerm e w t) w = some w' ∧
        w'.wL.length = n ∧ w'.wR.length = n ∧ w'.wO.length = n ∧ w'.wV.length = m ∧
        (∀ j, w'.wL.getD j 0 = w.wL.getD j 0 +
          e * termWeight (VariableIndex.MultiplierLeft j) terms) ∧
        (∀ j, w'.wR.getD j 0 = w.wR.getD j 0 +
          e * termWeight (VariableIndex.MultiplierRight j) terms) ∧
        (∀ j, w'.wO.getD j 0 = w.wO.getD j 0 +
          e * termWeight (VariableIndex.MultiplierOutput j) terms) ∧
        (∀ j, w'.wV.getD j 0 = w.wV.getD j 0 -
          e * termWeight (VariableIndex.Committed j) terms) ∧
        w'.wc = w.wc - e * termWeight VariableIndex.One terms
  | [], w, _, hL, hR, hO, hV =>
    ⟨w, by simp, hL, hR, hO, hV, by simp [termWeight], by simp [termWeight],
      by simp [termWeight], by simp [termWeight], by simp [termWeight]⟩
  | t :: ts, w, hsc, hL, hR, hO, hV => by
    obtain ⟨w1, hw1, h1L, h1R, h1O, h1V, g1L, g1R, g1O, g1V, g1c⟩ :=
      applyTerm_spec e w t n m hL hR hO hV (hsc t (List.mem_cons_self t ts))
    obtain ⟨w', hw', h2L, h2R, h2O, h2V, g2L, g2R, g2O, g2V, g2c⟩ :=
      foldTerms_spec e n m ts w1 (fun u hu => hsc u (List.mem_cons_of_mem t hu))
        h1L h1R h1O h1V
    refine ⟨w', by rw [List.foldlM_cons, hw1]; exact hw', h2L, h2R, h2O, h2V,
      ?_, ?_, ?_, ?_, ?_⟩
    · intro j
      rw [g2L j, g1L j, termWeight_cons, mul_add, mul_ite, mul_zero, add_assoc]
    · intro j
      rw [g2R j, g1R j, termWeight_cons, mul_add, mul_ite, mul_zero, add_assoc]
    · intro j
      rw [g2O j, g1O j, termWeight_cons, mul_add, mul_ite, mul_zero, add_assoc]
    · intro j
      rw [g2V j, g1V j, termWeight_cons, mul_add, mul_ite, mul_zero, sub_sub]
    · rw [g2c, g1c, termWeight_cons, mul_add, mul_ite, mul_zero, sub_sub]

/-- Characterization of the outer `flattened_constraints` fold: constraint `q`
(zero-based, in insertion order) contributes with scale `e * z ^ q`, and the
running exponent ends at `e * z ^ Q`. -/
theorem foldCons_spec (z : F) (n m : ℕ) :
    ∀ (cs : List (Constraint F)) (w : Flattened F) (e : F),
      (∀ c ∈ cs, c.inScope n m = true) →
      w.wL.length = n → w.wR.length = n → w.wO.length = n → w.wV.length = m →
      ∃ w', cs.foldlM
          (fun (acc : Flattened F × F) lc => do
            let w ← lc.terms.foldlM (fun w t => applyTerm acc.2 w t) acc.1
            pure (w, acc.2 * z)) (w, e) = some (w', e * z ^ cs.length) ∧
        w'.wL.length = n ∧ w'.wR.length = n ∧ w'.wO.length = n ∧ w'.wV.length = m ∧
        (∀ j, w'.wL.getD j 0 = w.wL.getD j 0 + ∑ q ∈ Finset.range cs.length,
          e * z ^ q * termWeight (VariableIndex.MultiplierLeft j)
            ((cs.getD q { terms := [] }).terms)) ∧
        (∀ j, w'.wR.getD j 0 = w.wR.getD j 0 + ∑ q ∈ Finset.range cs.length,
          e * z ^ q * termWeight (VariableIndex.MultiplierRight j)
            ((cs.getD q { terms := [] }).terms)) ∧
        (∀ j, w'.wO.getD j 0 = w.wO.getD j 0 + ∑ q ∈ Finset.range cs.length,
          e * z ^ q * termWeight (VariableIndex.MultiplierOutput j)
            ((cs.getD q { terms := [] }).terms)) ∧
        (∀ j, w'.wV.getD j 0 = w.wV.getD j 0 - ∑ q ∈ Finset.range cs.length,
          e * z ^ q * termWeight (VariableIndex.Committed j)
            ((cs.getD q { terms := [] }).terms)) ∧
        w'.wc = w.wc - ∑ q ∈ Finset.range cs.length,
          e * z ^ q * termWeight VariableIndex.One ((cs.getD q { terms := [] }).terms)
  | [], w, e, _, hL, hR, hO, hV =>
    ⟨w, by simp, hL, hR, hO, hV, by simp, by simp, by simp, by simp, by simp⟩
  | c :: cs, w, e, hsc, hL, hR, hO, hV => by
    have hc : ∀ t ∈ c.terms, indexInScope n m t.1 = true := by
      have := hsc c (List.mem_cons_self c cs)
      simpa [Constraint.inScope, List.all_eq_true] using this
    obtain ⟨w1, hw1, h1L, h1R, h1O, h1V, g1L, g1R, g1O, g1V, g1c⟩ :=
      foldTerms_spec e n m c.terms w hc hL hR hO hV
    obtain ⟨w', hw', h2L, h2R, h2O, h2V, g2L, g2R, g2O, g2V, g2c⟩ :=
      foldCons_spec z n m cs w1 (e * z) (fun u hu => hsc u (List.mem_cons_of_mem c hu))
        h1L h1R h1O h1V
    have hpow : e * z * z ^ cs.length = e * z ^ (c :: cs).length := by
      rw [List.length_cons]
      ring
    have hsum : ∀ idx : VariableIndex,
        ∑ q ∈ Finset.range cs.length,
            e * z * z ^ q * termWeight idx (cs.getD q { terms := [] }).terms =
          ∑ q ∈ Finset.range cs.length,
            e * (z ^ q * z) * termWeight idx (cs.getD q { terms := [] }).terms :=
      fun idx => Finset.sum_congr rfl fun q _ => by ring
    have hcons : (c :: cs).foldlM
        (fun (acc : Flattened F × F) lc => do
          let w ← lc.terms.foldlM (fun w t => applyTerm acc.2 w t) acc.1
          pure (w, acc.2 * z)) (w, e) =
        cs.foldlM
          (fun (acc : Flattened F × F) lc => do
            let w ← lc.terms.foldlM (fun w t => applyTerm acc.2 w t) acc.1
            pure (w, acc.2 * z)) (w1, e * z) := by
      rw [List.foldlM_cons, hw1]
      rfl
    refine ⟨w', ?_, h2L, h2R, h2O, h2V, ?_, ?_, ?_, ?_, ?_⟩
    · rw [hcons, hw', hpow]
    · intro j
      rw [g2L j, g1L j, List.length_cons, Finset.sum_range_succ', hsum]
      simp only [List.getD_cons_succ, List.getD_cons_zero, pow_zero, pow_succ]
      ring
    · intro j
      rw [g2R j, g1R j, List.length_cons, Finset.sum_range_succ', hsum]
      simp only [List.getD_cons_succ, List.getD_cons_zero, pow_zero, pow_succ]
      ring
    · intro j
      rw [g2O j, g1O j, List.length_cons, Finset.sum_range_succ', hsum]
      simp only [List.getD_cons_succ, List.getD_cons_zero, pow_zero, pow_succ]
      ring
    · intro j
      rw [g2V j, g1V j, List.length_cons, Finset.sum_range_succ', hsum]
      simp only [List.getD_cons_succ, List.getD_cons_zero, pow_zero, pow_succ]
      ring
    · rw [g2c, g1c, List.length_cons, Finset.sum_range_succ', hsum]
      simp only [List.getD_cons_succ, List.getD_cons_zero, pow_zero, pow_succ]
      ring


/-- Full characterization of `flattened_constraints` on in-scope constraints:
it succeeds, the vectors have lengths `(n, n, n, m)`, and entry `i` of each
weight vector is the sum over constraints `q` (in insertion order) of
`z ^ (q+1)` times the total coefficient that constraint puts on the matching
index (negated for `wV` and `wc`). -/
theorem flattened_constraints_spec (st : CommittedVerifierCS F G) (z : F)
    (hB : ∀ c ∈ st.constraints, c.inScope st.num_vars st.V.length = true) :
    ∃ fl, st.flattened_constraints z = some fl ∧
      fl.wL.length = st.num_vars ∧ fl.wR.length = st.num_vars ∧
      fl.wO.length = st.num_vars ∧ fl.wV.length = st.V.length ∧
      (∀ j, fl.wL.getD j 0 = ∑ q ∈ Finset.range st.constraints.length,
        z ^ (q + 1) * termWeight (VariableIndex.MultiplierLeft j)
          ((st.constraints.getD q { terms := [] }).terms)) ∧
      (∀ j, fl.wR.getD j 0 = ∑ q ∈ Finset.range st.constraints.length,
        z ^ (q + 1) * termWeight (VariableIndex.MultiplierRight j)
          ((st.constraints.getD q { terms := [] }).terms)) ∧
      (∀ j, fl.wO.getD j 0 = ∑ q ∈ Finset.range st.constraints.length,
        z ^ (q + 1) * termWeight (VariableIndex.MultiplierOutput j)
          ((st.constraints.getD q { terms := [] }).terms)) ∧
      (∀ j, fl.wV.getD j 0 = -∑ q ∈ Finset.range st.constraints.length,
        z ^ (q + 1) * termWeight (VariableIndex.Committed j)
          ((st.constraints.getD q { terms := [] }).terms)) ∧
      fl.wc = -∑ q ∈ Finset.range st.constraints.length,
        z ^ (q + 1) * termWeight VariableIndex.One
          ((st.constraints.getD q { terms := [] }).terms) := by
  obtain ⟨w', hw', hL, hR, hO, hV, gL, gR, gO, gV, gc⟩ :=
    foldCons_spec z st.num_vars st.V.length st.constraints
      { wL := List.replicate st.num_vars 0
        wR := List.replicate st.num_vars 0
        wO := List.replicate st.num_vars 0
        wV := List.replicate st.V.length 0
        wc := 0 } z hB (by simp) (by simp) (by simp) (by simp)
  have hsum : ∀ idx : VariableIndex,
      ∑ q ∈ Finset.range st.constraints.length,
          z * z ^ q * termWeight idx ((st.constraints.getD q { terms := [] }).terms) =
        ∑ q ∈ Finset.range st.constraints.length,
          z ^ (q + 1) * termWeight idx ((st.constraints.getD q { terms := [] }).terms) :=
    fun idx => Finset.sum_congr rfl fun q _ => by ring
  refine ⟨w', ?_, hL, hR, hO, hV, ?_, ?_, ?_, ?_, ?_⟩
  · simp only [CommittedVerifierCS.flattened_constraints]
    rw [hw']
    rfl
  · intro j
    rw [gL j, getD_replicate_self, zero_add, hsum]
  · intro j
    rw [gR j, getD_replicate_self, zero_add, hsum]
  · intro j
    rw [gO j, getD_replicate_self, zero_add, hsum]
  · intro j
    rw [gV j, getD_replicate_self, zero_sub, hsum]
  · rw [gc, zero_sub, hsum]

/-- `applyTerm` never changes the lengths of the weight vectors. -/
theorem applyTerm_some_lengths (e : F) (w : Flattened F) (t : VariableIndex × F)
    (w' : Flattened F) (h : applyTerm e w t = some w') :
    w'.wL.length = w.wL.length ∧ w'.wR.length = w.wR.length ∧
      w'.wO.length = w.wO.length ∧ w'.wV.length = w.wV.length := by
  cases ht : t.1 <;> simp only [applyTerm, ht] at h
  case MultiplierLeft i =>
    rcases Option.map_eq_some'.mp h with ⟨v', hv', rfl⟩
    simp only [addAt] at hv'
    split at hv'
    · cases hv'
      simp
    · cases hv'
  case MultiplierRight i =>
    rcases Option.map_eq_some'.mp h with ⟨v', hv', rfl⟩
    simp only [addAt] at hv'
    split at hv'
    · cases hv'
      simp
    · cases hv'
  case MultiplierOutput i =>
    rcases Option.map_eq_some'.mp h with ⟨v', hv', rfl⟩
    simp only [addAt] at hv'
    split at hv'
    · cases hv'
      simp
    · cases hv'
  case Committed i =>
    rcases Option.map_eq_some'.mp h with ⟨v', hv', rfl⟩
    simp only [subAt] at hv'
    split at hv'
    · cases hv'
      simp
    · cases hv'
  case One =>
    cases h
    simp

/-- The inner `flattened_constraints` fold never changes the lengths of the
weight vectors. -/
theorem foldTerms_some_lengths (e : F) :
    ∀ (terms : List (VariableIndex × F)) (w w' : Flattened F),
      terms.foldlM (fun w t => applyTerm e w t) w = some w' →
      w'.wL.length = w.wL.length ∧ w'.wR.length = w.wR.length ∧
        w'.wO.length = w.wO.length ∧ w'.wV.length = w.wV.length
  | [], w, w', h => by
    cases h
    exact ⟨rfl, rfl, rfl, rfl⟩
  | t :: ts, w, w', h => by
    rw [List.foldlM_cons] at h
    cases happ : applyTerm e w t with
    | none => rw [happ] at h; cases h
    | some w1 =>
      rw [happ] at h
      obtain ⟨a1, a2, a3, a4⟩ := applyTerm_some_lengths e w t w1 happ
      obtain ⟨b1, b2, b3, b4⟩ := foldTerms_some_lengths e ts w1 w' h
      exact ⟨b1.trans a1, b2.trans a2, b3.trans a3, b4.trans a4⟩

/-- The outer `flattened_constraints` fold never changes the lengths of the
weight vectors. -/
theorem foldCons_some_lengths (z : F) :
    ∀ (cs : List (Constraint F)) (acc : Flattened F × F) (res : Flattened F × F),
      cs.foldlM
        (fun (acc : Flattened F × F) lc => do
          let w ← lc.terms.foldlM (fun w t => applyTerm acc.2 w t) acc.1
          pure (w, acc.2 * z)) acc = some res →
      res.1.wL.length = acc.1.wL.length ∧ res.1.wR.length = acc.1.wR.length ∧
        res.1.wO.length = acc.1.wO.length ∧ res.1.wV.length = acc.1.wV.length
  | [], acc, res, h => by
    cases h
    exact ⟨rfl, rfl, rfl, rfl⟩
  | c :: cs, acc, res, h => by
    rw [List.foldlM_cons] at h
    cases hterms : c.terms.foldlM (fun w t => applyTerm acc.2 w t) acc.1 with
    | none =>
      rw [hterms] at h
      simp at h
    | some w1 =>
      rw [hterms] at h
      obtain ⟨a1, a2, a3, a4⟩ := foldTerms_some_lengths acc.2 c.terms acc.1 w1 hterms
      obtain ⟨b1, b2, b3, b4⟩ := foldCons_some_lengths z cs (w1, acc.2 * z) res h
      exact ⟨b1.trans a1, b2.trans a2, b3.trans a3, b4.trans a4⟩

/-- Whenever `flattened_constraints` succeeds, the returned vectors have
lengths `(num_vars, num_vars, num_vars, |V|)`. -/
theorem flattened_constraints_some_lengths (st : CommittedVerifierCS F G) (z : F)
    (fl : Flattened F) (h : st.flattened_constraints z = some fl) :
    fl.wL.length = st.num_vars ∧ fl.wR.length = st.num_vars ∧
      fl.wO.length = st.num_vars ∧ fl.wV.length = st.V.length := by
  simp only [CommittedVerifierCS.flattened_constraints] at h
  cases hfold : st.constraints.foldlM
      (fun (acc : Flattened F × F) lc => do
        let w ← lc.terms.foldlM (fun w t => applyTerm acc.2 w t) acc.1
        pure (w, acc.2 * z))
      ({ wL := List.replicate st.num_vars 0
         wR := List.replicate st.num_vars 0
         wO := List.replicate st.num_vars 0
         wV := List.replicate st.V.length 0
         wc := 0 }, z) with
  | none => rw [hfold] at h; cases h
  | some res =>
    rw [hfold] at h
    cases h
    simpa using foldCons_some_lengths z st.constraints _ res hfold

end FlattenLemmas

section VerifyLemmas

variable [Field F] [AddCommGroup G] [Module F G] [DecidableEq G]

/-- Inversion of `verifyData`: all fields of a successful run. -/
theorem verifyData_some_elim (o : Oracle F G) (st : CommittedVerifierCS F G)
    (proof : R1CSProof F G) (d : VerifyData F G)
    (hd : st.verifyData o proof = some d) :
    st.flattened_constraints (zChal o st proof) = some d.fl ∧
      d.y = yChal o st proof ∧ d.z = zChal o st proof ∧ d.x = xChal o st proof ∧
      d.w = wChal o st proof ∧ d.r = rSample o st proof ∧
      d.u_sq = ippUsq o st proof ∧ d.u_inv_sq = ippUinvsq o st proof ∧
      d.s = ippS o st proof ∧ d.scalars = megaScalars o st proof d.fl ∧
      d.points = megaPoints st proof ∧ d.finalEvents = eventsIpp o st proof := by
  unfold CommittedVerifierCS.verifyData at hd
  cases hf : st.flattened_constraints (zChal o st proof) with
  | none => rw [hf] at hd; cases hd
  | some fl =>
    rw [hf] at hd
    cases hd
    exact ⟨rfl, rfl, rfl, rfl, rfl, rfl, rfl, rfl, rfl, rfl, rfl, rfl⟩

/-- `verifyData` succeeds exactly when flattening succeeds. -/
theorem verifyData_isSome_iff (o : Oracle F G) (st : CommittedVerifierCS F G)
    (proof : R1CSProof F G) :
    (st.verifyData o proof).isSome ↔
      (st.flattened_constraints (zChal o st proof)).isSome := by
  unfold CommittedVerifierCS.verifyData
  cases st.flattened_constraints (zChal o st proof) <;> simp

/-- `verify` under a sufficient generator capacity. -/
theorem verify_of_le_capacity (o : Oracle F G) (st : CommittedVerifierCS F G)
    (proof : R1CSProof F G)
    (hcap : ¬ st.bp_gens.gens_capacity < nextPowTwo st.num_vars) :
    st.verify o proof =
      (st.verifyData o proof).map (fun d => (verifyVerdict d, d.finalEvents)) := by
  unfold CommittedVerifierCS.verify
  rw [if_neg hcap]

/-- `verify` under an insufficient generator capacity. -/
theorem verify_of_lt_capacity (o : Oracle F G) (st : CommittedVerifierCS F G)
    (proof : R1CSProof F G)
    (hcap : st.bp_gens.gens_capacity < nextPowTwo st.num_vars) :
    st.verify o proof = some (Except.error R1CSError.InvalidGeneratorsLength, st.events) := by
  unfold CommittedVerifierCS.verify
  rw [if_pos hcap]

end VerifyLemmas

section GadgetLemmas

variable [Field F] [AddCommGroup G] [Module F G]

/-- Constraint scope is monotone in the multiplier count. -/
theorem inScope_mono (c : Constraint F) (k k2 m : ℕ) (h : c.inScope k m = true)
    (hk : k ≤ k2) : c.inScope k2 m = true := by
  unfold Constraint.inScope at h ⊢
  rw [List.all_eq_true] at h ⊢
  intro t ht
  have h2 := h t ht
  cases hidx : t.1 <;> simp [indexInScope, hidx] at h2 ⊢ <;> omega

/-- Every committed-state program preserves the commitment list and never
decreases the multiplier count. -/
theorem runPostProg_preserves (o : Oracle F G) :
    ∀ (p : PostProg F) (st : CommittedVerifierCS F G),
      (runPostProg o p st).V = st.V ∧ st.num_vars ≤ (runPostProg o p st).num_vars
  | PostProg.nil, st => ⟨rfl, le_refl _⟩
  | PostProg.cons (PostOp.assignMul l r out) rest, st => by
    have ih := runPostProg_preserves o rest ((st.assign_multiplier l r out).2)
    refine ⟨ih.1.trans rfl, le_trans ?_ ih.2⟩
    exact Nat.le_succ _
  | PostProg.cons (PostOp.addConstr c) rest, st => by
    have ih := runPostProg_preserves o rest (st.add_constraint c)
    exact ⟨ih.1.trans rfl, ih.2⟩
  | PostProg.cons (PostOp.chal label) rest, st => by
    have ih := runPostProg_preserves o rest
      ((CommittedVerifierCS.challenge_scalar o st label).2)
    exact ⟨ih.1.trans rfl, ih.2⟩
  | PostProg.cons (PostOp.afterCommit q) rest, st => by
    have ihq := runPostProg_preserves o q st
    have ih := runPostProg_preserves o rest (runPostProg o q st)
    exact ⟨ih.1.trans ihq.1, le_trans ihq.2 ih.2⟩

/-- Every pre-commitment program preserves the commitment list and never
decreases the multiplier count. -/
theorem runPreProg_preserves (o : Oracle F G) :
    ∀ (pre : List (PreOp F)) (cs : VerifierCS F G),
      (runPreProg o pre cs).V = cs.V ∧ cs.num_vars ≤ (runPreProg o pre cs).num_vars
  | [], cs => ⟨rfl, le_refl _⟩
  | PreOp.assignMul l r out :: rest, cs => by
    have ih := runPreProg_preserves o rest ((cs.assign_multiplier l r out).2)
    exact ⟨ih.1.trans rfl, le_trans (Nat.le_succ _) ih.2⟩
  | PreOp.addConstr c :: rest, cs => by
    have ih := runPreProg_preserves o rest (cs.add_constraint c)
    exact ⟨ih.1.trans rfl, ih.2⟩
  | PreOp.afterCommit q :: rest, cs => by
    have ih := runPreProg_preserves o rest
      { cs with callbacks := cs.callbacks ++ [progCallback o q] }
    exact ⟨ih.1.trans rfl, ih.2⟩

/-- Running program callbacks never fails, and equals the fold of the
programs. -/
theorem runCallbacks_progs (o : Oracle F G) :
    ∀ (progs : List (PostProg F)) (st : CommittedVerifierCS F G),
      runCallbacks (progs.map (progCallback o)) st =
        Except.ok (progs.foldl (fun s p => runPostProg o p s) st)
  | [], st => rfl
  | q :: progs, st => by
    have ih := runCallbacks_progs o progs (runPostProg o q st)
    unfold runCallbacks at ih ⊢
    rw [List.map_cons, List.foldlM_cons, List.foldl_cons]
    exact ih

/-- The fold of committed-state programs preserves the commitment list and
never decreases the multiplier count. -/
theorem foldPosts_preserves (o : Oracle F G) :
    ∀ (progs : List (PostProg F)) (st : CommittedVerifierCS F G),
      (progs.foldl (fun s p => runPostProg o p s) st).V = st.V ∧
        st.num_vars ≤ (progs.foldl (fun s p => runPostProg o p s) st).num_vars
  | [], st => ⟨rfl, le_refl _⟩
  | q :: progs, st => by
    have hq := runPostProg_preserves o q st
    have ih := foldPosts_preserves o progs (runPostProg o q st)
    rw [List.foldl_cons]
    exact ⟨ih.1.trans hq.1, le_trans hq.2 ih.2⟩

/-- Scope-correctness of committed-state programs: a program that scope-checks
from the current multiplier count ends at the predicted count, preserves the
commitment list, and keeps every stored constraint in scope. -/
theorem runPostProg_scoped (o : Oracle F G) (m : ℕ) :
    ∀ (p : PostProg F) (st : CommittedVerifierCS F G) (k' : ℕ),
      st.V.length = m → p.scopedFrom st.num_vars m = some k' →
      (∀ c ∈ st.constraints, c.inScope st.num_vars m = true) →
      (runPostProg o p st).num_vars = k' ∧ (runPostProg o p st).V = st.V ∧
        (∀ c ∈ (runPostProg o p st).constraints, c.inScope k' m = true)
  | PostProg.nil, st, k', _, hsc, hB => by
    cases hsc
    exact ⟨rfl, rfl, hB⟩
  | PostProg.cons (PostOp.assignMul l r out) rest, st, k', hV, hsc, hB => by
    have hB2 : ∀ c ∈ ((st.assign_multiplier l r out).2).constraints,
        c.inScope ((st.assign_multiplier l r out).2).num_vars m = true :=
      fun c hc => inScope_mono c st.num_vars _ m (hB c hc) (Nat.le_succ _)
    exact runPostProg_scoped o m rest ((st.assign_multiplier l r out).2) k' hV hsc hB2
  | PostProg.cons (PostOp.addConstr c) rest, st, k', hV, hsc, hB => by
    unfold PostProg.scopedFrom at hsc
    split at hsc
    · have hB2 : ∀ c2 ∈ (st.add_constraint c).constraints,
          c2.inScope (st.add_constraint c).num_vars m = true := by
        intro c2 hc2
        rcases List.mem_append.mp hc2 with h | h
        · exact hB c2 h
        · rw [List.mem_singleton.mp h]
          assumption
      exact runPostProg_scoped o m rest (st.add_constraint c) k' hV hsc hB2
    · cases hsc
  | PostProg.cons (PostOp.chal label) rest, st, k', hV, hsc, hB =>
    runPostProg_scoped o m rest ((CommittedVerifierCS.challenge_scalar o st label).2)
      k' hV hsc hB
  | PostProg.cons (PostOp.afterCommit q) rest, st, k', hV, hsc, hB => by
    unfold PostProg.scopedFrom at hsc
    cases hq : q.scopedFrom st.num_vars m with
    | none => rw [hq] at hsc; cases hsc
    | some k1 =>
      rw [hq] at hsc
      obtain ⟨e1, e2, e3⟩ := runPostProg_scoped o m q st k1 hV hq hB
      have hV2 : (runPostProg o q st).V.length = m := by rw [e2, hV]
      have hsc2 : rest.scopedFrom (runPostProg o q st).num_vars m = some k' := by
        rw [e1]
        exact hsc
      obtain ⟨f1, f2, f3⟩ :=
        runPostProg_scoped o m rest (runPostProg o q st) k' hV2 hsc2 (by rw [e1]; exact e3)
      exact ⟨f1, f2.trans e2, f3⟩

/-- Scope-correctness of pre-commitment programs: the program ends at the
predicted commit-time count, preserves the commitment list, registers exactly
the deferred programs in order, and keeps every stored constraint in scope at
the commit-time count. -/
theorem runPreProg_scoped (o : Oracle F G) (m : ℕ) :
    ∀ (pre : List (PreOp F)) (cs : VerifierCS F G) (k' : ℕ) (qs : List (PostProg F)),
      cs.V.length = m → preScoped pre cs.num_vars m = some (k', qs) →
      (∀ c ∈ cs.constraints, c.inScope cs.num_vars m = true) →
      (runPreProg o pre cs).num_vars = k' ∧ (runPreProg o pre cs).V = cs.V ∧
        (runPreProg o pre cs).callbacks = cs.callbacks ++ qs.map (progCallback o) ∧
        (∀ c ∈ (runPreProg o pre cs).constraints, c.inScope k' m = true)
  | [], cs, k', qs, _, hsc, hB => by
    cases hsc
    exact ⟨rfl, rfl, (List.append_nil cs.callbacks).symm, hB⟩
  | PreOp.assignMul l r out :: rest, cs, k', qs, hV, hsc, hB => by
    have hB2 : ∀ c ∈ ((cs.assign_multiplier l r out).2).constraints,
        c.inScope ((cs.assign_multiplier l r out).2).num_vars m = true :=
      fun c hc => inScope_mono c cs.num_vars _ m (hB c hc) (Nat.le_succ _)
    exact runPreProg_scoped o m rest ((cs.assign_multiplier l r out).2) k' qs hV hsc hB2
  | PreOp.addConstr c :: rest, cs, k', qs, hV, hsc, hB => by
    unfold preScoped at hsc
    split at hsc
    · have hB2 : ∀ c2 ∈ (cs.add_constraint c).constraints,
          c2.inScope (cs.add_constraint c).num_vars m = true := by
        intro c2 hc2
        rcases List.mem_append.mp hc2 with h | h
        · exact hB c2 h
        · rw [List.mem_singleton.mp h]
          assumption
      exact runPreProg_scoped o m rest (cs.add_constraint c) k' qs hV hsc hB2
    · cases hsc
  | PreOp.afterCommit q :: rest, cs, k', qs, hV, hsc, hB => by
    unfold preScoped at hsc
    cases hrest : preScoped rest cs.num_vars m with
    | none => rw [hrest] at hsc; cases hsc
    | some r =>
      rw [hrest] at hsc
      have hk : k' = r.1 ∧ qs = q :: r.2 := by
        cases hsc
        exact ⟨rfl, rfl⟩
      obtain ⟨e1, e2, e3, e4⟩ := runPreProg_scoped o m rest
        { cs with callbacks := cs.callbacks ++ [progCallback o q] } r.1 r.2 hV hrest hB
      rw [hk.1, hk.2]
      refine ⟨e1, e2, ?_, e4⟩
      show (runPreProg o rest
          { cs with callbacks := cs.callbacks ++ [progCallback o q] }).callbacks =
        cs.callbacks ++ (q :: r.2).map (progCallback o)
      rw [e3]
      simp

/-- Scope-correctness of the deferred-callback drain: the callbacks all
succeed, the final count is the predicted one, the commitment list is
preserved, and every stored constraint stays in scope. -/
theorem runCallbacks_scoped (o : Oracle F G) (m : ℕ) :
    ∀ (qs : List (PostProg F)) (st : CommittedVerifierCS F G) (k' : ℕ),
      st.V.length = m → scopedList qs st.num_vars m = some k' →
      (∀ c ∈ st.constraints, c.inScope st.num_vars m = true) →
      ∃ st', runCallbacks (qs.map (progCallback o)) st = Except.ok st' ∧
        st'.num_vars = k' ∧ st'.V = st.V ∧
        (∀ c ∈ st'.constraints, c.inScope k' m = true)
  | [], st, k', _, hsc, hB => by
    cases hsc
    exact ⟨st, rfl, rfl, rfl, hB⟩
  | q :: qs, st, k', hV, hsc, hB => by
    unfold scopedList at hsc
    rw [List.foldlM_cons] at hsc
    cases hq : q.scopedFrom st.num_vars m with
    | none => rw [hq] at hsc; cases hsc
    | some k1 =>
      rw [hq] at hsc
      obtain ⟨e1, e2, e3⟩ := runPostProg_scoped o m q st k1 hV hq hB
      have hV2 : (runPostProg o q st).V.length = m := by rw [e2, hV]
      have hsc2 : scopedList qs (runPostProg o q st).num_vars m = some k' := by
        unfold scopedList
        rw [e1]
        exact hsc
      obtain ⟨st', f1, f2, f3, f4⟩ := runCallbacks_scoped o m qs (runPostProg o q st) k'
        hV2 hsc2 (by rw [e1]; exact e3)
      refine ⟨st', ?_, f2, f3.trans e2, f4⟩
      unfold runCallbacks
      rw [List.map_cons, List.foldlM_cons]
      have hcall : progCallback o q st = Except.ok (runPostProg o q st) := rfl
      rw [hcall]
      exact f1

end GadgetLemmas


section Claims

variable [Field F] [AddCommGroup G] [Module F G] [DecidableEq G]

/-- C3: `flattened_constraints(z)` walks the stored constraint list in
insertion order, starting with `exp_z = z` and multiplying `exp_z` by `z`
after each constraint; each term `(idx, coeff)` adds `exp_z·coeff` to
`wL[i]`/`wR[i]`/`wO[i]` for the three multiplier kinds, subtracts it from
`wV[i]` for `Committed(i)` and from `wc` for `One`; duplicated indices
accumulate additively; the returned vectors have lengths `(n, n, n, m)` with
`wc` a single scalar (constraint `q` in insertion order therefore contributes
with scale `z^(q+1)`, and the per-index totals are the accumulated sums
below). -/
theorem flatten_insertion_order_accumulation (st : CommittedVerifierCS F G) (z : F)
    (hB : ∀ c ∈ st.constraints, c.inScope st.num_vars st.V.length = true) :
    ∃ fl, st.flattened_constraints z = some fl ∧
      fl.wL.length = st.num_vars ∧ fl.wR.length = st.num_vars ∧
      fl.wO.length = st.num_vars ∧ fl.wV.length = st.V.length ∧
      (∀ j, fl.wL.getD j 0 = ∑ q ∈ Finset.range st.constraints.length,
        z ^ (q + 1) * termWeight (VariableIndex.MultiplierLeft j)
          ((st.constraints.getD q { terms := [] }).terms)) ∧
      (∀ j, fl.wR.getD j 0 = ∑ q ∈ Finset.range st.constraints.length,
        z ^ (q + 1) * termWeight (VariableIndex.MultiplierRight j)
          ((st.constraints.getD q { terms := [] }).terms)) ∧
      (∀ j, fl.wO.getD j 0 = ∑ q ∈ Finset.range st.constraints.length,
        z ^ (q + 1) * termWeight (VariableIndex.MultiplierOutput j)
          ((st.constraints.getD q { terms := [] }).terms)) ∧
      (∀ j, fl.wV.getD j 0 = -∑ q ∈ Finset.range st.constraints.length,
        z ^ (q + 1) * termWeight (VariableIndex.Committed j)
          ((st.constraints.getD q { terms := [] }).terms)) ∧
      fl.wc = -∑ q ∈ Finset.range st.constraints.length,
        z ^ (q + 1) * termWeight VariableIndex.One
          ((st.constraints.getD q { terms := [] }).terms) :=
  flattened_constraints_spec st z hB

/-- Witness for C3 at `stEx` with challenge `z = 2`. -/
theorem flatten_insertion_order_accumulation_witness :
    (∀ c ∈ stEx.constraints, c.inScope stEx.num_vars stEx.V.length = true) ∧
    ∃ fl, stEx.flattened_constraints 2 = some fl ∧
      fl.wL.length = stEx.num_vars ∧ fl.wR.length = stEx.num_vars ∧
      fl.wO.length = stEx.num_vars ∧ fl.wV.length = stEx.V.length ∧
      (∀ j, fl.wL.getD j 0 = ∑ q ∈ Finset.range stEx.constraints.length,
        2 ^ (q + 1) * termWeight (VariableIndex.MultiplierLeft j)
          ((stEx.constraints.getD q { terms := [] }).terms)) ∧
      (∀ j, fl.wR.getD j 0 = ∑ q ∈ Finset.range stEx.constraints.length,
        2 ^ (q + 1) * termWeight (VariableIndex.MultiplierRight j)
          ((stEx.constraints.getD q { terms := [] }).terms)) ∧
      (∀ j, fl.wO.getD j 0 = ∑ q ∈ Finset.range stEx.constraints.length,
        2 ^ (q + 1) * termWeight (VariableIndex.MultiplierOutput j)
          ((stEx.constraints.getD q { terms := [] }).terms)) ∧
      (∀ j, fl.wV.getD j 0 = -∑ q ∈ Finset.range stEx.constraints.length,
        2 ^ (q + 1) * termWeight (VariableIndex.Committed j)
          ((stEx.constraints.getD q { terms := [] }).terms)) ∧
      fl.wc = -∑ q ∈ Finset.range stEx.constraints.length,
        2 ^ (q + 1) * termWeight VariableIndex.One
          ((stEx.constraints.getD q { terms := [] }).terms) :=
  ⟨by decide, flatten_insertion_order_accumulation stEx 2 (by decide)⟩


/-- C1: assuming the generator capacity is at least `n' = next_power_of_two
(num_vars)` (and the run does not panic, i.e. `verifyData` succeeds),
`verify` returns `Ok` exactly when the mega-check multiscalar multiplication
is the group identity; a non-identity result, or a failed decompression of
any compressed input point (`A_I`, `A_O`, `S`, any `V_i`, any `T_i`, any
`L_i` or `R_i`), yields the same `VerificationError` value. -/
theorem verify_ok_iff_megacheck_identity (o : Oracle F G) (st : CommittedVerifierCS F G)
    (proof : R1CSProof F G) (d : VerifyData F G)
    (hcap : ¬ st.bp_gens.gens_capacity < nextPowTwo st.num_vars)
    (hd : st.verifyData o proof = some d) :
    (st.verify o proof = some (Except.ok (), d.finalEvents) ↔
      optionalMSM d.scalars d.points = some 0) ∧
    (optionalMSM d.scalars d.points ≠ some 0 →
      st.verify o proof = some (Except.error R1CSError.VerificationError, d.finalEvents)) ∧
    ((proof.A_I = none ∨ proof.A_O = none ∨ proof.S = none ∨ none ∈ st.V ∨
      proof.T_1 = none ∨ proof.T_3 = none ∨ proof.T_4 = none ∨ proof.T_5 = none ∨
      proof.T_6 = none ∨ none ∈ proof.ipp_proof.L_vec ∨ none ∈ proof.ipp_proof.R_vec) →
      st.verify o proof = some (Except.error R1CSError.VerificationError, d.finalEvents)) := by
  have hv : st.verify o proof = some (verifyVerdict d, d.finalEvents) := by
    rw [verify_of_le_capacity o st proof hcap, hd]
    rfl
  obtain ⟨-, -, -, -, -, -, -, -, -, -, hpts, -⟩ := verifyData_some_elim o st proof d hd
  have herr : optionalMSM d.scalars d.points ≠ some 0 →
      st.verify o proof = some (Except.error R1CSError.VerificationError, d.finalEvents) := by
    intro hne
    rw [hv]
    unfold verifyVerdict
    cases hmsm : optionalMSM d.scalars d.points with
    | none => rfl
    | some p =>
      have hp : ¬ p = 0 := fun hp => hne (by rw [hmsm, hp])
      show some ((if p = 0 then Except.ok () else
        Except.error R1CSError.VerificationError : Except R1CSError Unit),
        d.finalEvents) = _
      rw [if_neg hp]
  refine ⟨⟨fun h => ?_, fun h => ?_⟩, herr, fun hdec => ?_⟩
  · rw [hv] at h
    have hverdict : verifyVerdict d = Except.ok () :=
      congrArg Prod.fst (Option.some.inj h)
    unfold verifyVerdict at hverdict
    cases hmsm : optionalMSM d.scalars d.points with
    | none =>
      rw [hmsm] at hverdict
      exact Except.noConfusion
        (show Except.error R1CSError.VerificationError = Except.ok () from hverdict)
    | some p =>
      rw [hmsm] at hverdict
      have hverdict2 : (if p = 0 then Except.ok () else
          Except.error R1CSError.VerificationError : Except R1CSError Unit) =
          Except.ok () := hverdict
      by_cases hp : p = 0
      · rw [hp]
      · rw [if_neg hp] at hverdict2
        exact Except.noConfusion hverdict2
  · rw [hv]
    unfold verifyVerdict
    rw [h]
    simp
  · apply herr
    have hmem : none ∈ d.points := by
      rw [hpts]
      unfold megaPoints
      simp only [List.mem_cons, List.mem_append, List.mem_singleton]
      rcases hdec with h | h | h | h | h | h | h | h | h | h | h <;> simp [h]
    unfold optionalMSM
    rw [allSome_eq_none d.points hmem]
    simp

/-- Witness for C1 at `stEx`, `proofEx`, `dEx`. -/
theorem verify_ok_iff_megacheck_identity_witness :
    (¬ stEx.bp_gens.gens_capacity < nextPowTwo stEx.num_vars) ∧
    ((stEx.verify oEx proofEx = some (Except.ok (), dEx.finalEvents) ↔
      optionalMSM dEx.scalars dEx.points = some 0) ∧
    (optionalMSM dEx.scalars dEx.points ≠ some 0 →
      stEx.verify oEx proofEx =
        some (Except.error R1CSError.VerificationError, dEx.finalEvents)) ∧
    ((proofEx.A_I = none ∨ proofEx.A_O = none ∨ proofEx.S = none ∨ none ∈ stEx.V ∨
      proofEx.T_1 = none ∨ proofEx.T_3 = none ∨ proofEx.T_4 = none ∨ proofEx.T_5 = none ∨
      proofEx.T_6 = none ∨ none ∈ proofEx.ipp_proof.L_vec ∨
      none ∈ proofEx.ipp_proof.R_vec) →
      stEx.verify oEx proofEx =
        some (Except.error R1CSError.VerificationError, dEx.finalEvents))) :=
  ⟨by decide, verify_ok_iff_megacheck_identity oEx stEx proofEx dEx (by decide) (by decide)⟩

/-- C6: `verify` returns `InvalidGeneratorsLength` exactly when
`gens_capacity < n'`; this pre-check happens before any transcript
interaction (the returned transcript is the incoming one, unchanged); every
other outcome of `verify` is `Ok` or the single `VerificationError`. -/
theorem verify_error_taxonomy (o : Oracle F G) (st : CommittedVerifierCS F G)
    (proof : R1CSProof F G) :
    (st.bp_gens.gens_capacity < nextPowTwo st.num_vars →
      st.verify o proof =
        some (Except.error R1CSError.InvalidGeneratorsLength, st.events)) ∧
    (∀ res tr, st.verify o proof = some (res, tr) →
      ((res = Except.error R1CSError.InvalidGeneratorsLength ↔
        st.bp_gens.gens_capacity < nextPowTwo st.num_vars) ∧
      (res ≠ Except.error R1CSError.InvalidGeneratorsLength →
        res = Except.ok () ∨ res = Except.error R1CSError.VerificationError))) := by
  refine ⟨fun hcap => verify_of_lt_capacity o st proof hcap, fun res tr h => ?_⟩
  by_cases hcap : st.bp_gens.gens_capacity < nextPowTwo st.num_vars
  · rw [verify_of_lt_capacity o st proof hcap] at h
    have := Option.some.inj h
    have hres : res = Except.error R1CSError.InvalidGeneratorsLength :=
      (congrArg Prod.fst this).symm
    subst hres
    exact ⟨iff_of_true rfl hcap, fun hne => absurd rfl hne⟩
  · rw [verify_of_le_capacity o st proof hcap] at h
    rcases Option.map_eq_some'.mp h with ⟨d, -, hpair⟩
    have hres : res = verifyVerdict d := (congrArg Prod.fst hpair).symm
    have hvd : verifyVerdict d = Except.ok () ∨
        verifyVerdict d = Except.error R1CSError.VerificationError := by
      unfold verifyVerdict
      cases optionalMSM d.scalars d.points with
      | none => exact Or.inr rfl
      | some p =>
        by_cases hp : p = 0
        · exact Or.inl (by
            show (if p = 0 then Except.ok () else
              Except.error R1CSError.VerificationError : Except R1CSError Unit) =
              Except.ok ()
            rw [if_pos hp])
        · exact Or.inr (by
            show (if p = 0 then Except.ok () else
              Except.error R1CSError.VerificationError : Except R1CSError Unit) =
              Except.error R1CSError.VerificationError
            rw [if_neg hp])
    subst hres
    refine ⟨iff_of_false ?_ hcap, fun _ => hvd⟩
    rcases hvd with hvd | hvd <;> rw [hvd] <;> simp

/-- Witness for C6 at the under-capacity state `stLow`. -/
theorem verify_error_taxonomy_witness :
    (stLow.bp_gens.gens_capacity < nextPowTwo stLow.num_vars) ∧
    stLow.verify oEx proofEx =
      some (Except.error R1CSError.InvalidGeneratorsLength, stLow.events) :=
  ⟨by decide, (verify_error_taxonomy oEx stLow proofEx).1 (by decide)⟩


/-- C4 (counterexample): with `num_vars = 0` the padded size is
`next_power_of_two(0) = 1`, not `0`, and the mega-check point list does
contain a `G` base point (`Gv 0 = 90` in the fixture) and an `H` base point
(`Hv 0 = 95`); its length is `14 = 3 + 0 + 5 + 2 + 1 + 1 + 1 + 1`, not
`12`. -/
theorem padded_size_zero_vars_counterexample :
    stZero.num_vars = 0 ∧ nextPowTwo stZero.num_vars = 1 ∧
    CommittedVerifierCS.verifyData oEx stZero proofEx = some dZero ∧
    some (90 : K) ∈ dZero.points ∧ some (95 : K) ∈ dZero.points ∧
    dZero.points.length = 14 := by decide

/-- C4 (amended): when the committed constraint system has `num_vars = 0` at
the time `verify` runs, the padded size `n'` equals `1` (Rust
`next_power_of_two(0) = 1`), the weight vectors `wL`, `wR`, `wO` are empty
(and `wV` has length `|V|`), and the mega-check multiscalar multiplication
contains exactly one `G` and one `H` base point. -/
theorem padded_size_at_zero_vars (o : Oracle F G) (st : CommittedVerifierCS F G)
    (proof : R1CSProof F G) (d : VerifyData F G)
    (h0 : st.num_vars = 0) (hd : st.verifyData o proof = some d) :
    nextPowTwo st.num_vars = 1 ∧ d.fl.wL = [] ∧ d.fl.wR = [] ∧ d.fl.wO = [] ∧
    d.fl.wV.length = st.V.length ∧
    d.points = proof.A_I :: proof.A_O :: proof.S :: (st.V ++
      [proof.T_1, proof.T_3, proof.T_4, proof.T_5, proof.T_6] ++
      [some st.pc_gens.B, some st.pc_gens.B_blinding] ++
      [some (st.bp_gens.Gv 0)] ++ [some (st.bp_gens.Hv 0)] ++
      proof.ipp_proof.L_vec ++ proof.ipp_proof.R_vec) := by
  have h1 : nextPowTwo st.num_vars = 1 := by rw [h0]; rfl
  obtain ⟨hfl, -, -, -, -, -, -, -, -, -, hpts, -⟩ := verifyData_some_elim o st proof d hd
  obtain ⟨hL, hR, hO, hV⟩ := flattened_constraints_some_lengths st _ d.fl hfl
  rw [h0] at hL hR hO
  refine ⟨h1, List.eq_nil_of_length_eq_zero hL, List.eq_nil_of_length_eq_zero hR,
    List.eq_nil_of_length_eq_zero hO, hV, ?_⟩
  rw [hpts]
  unfold megaPoints
  rw [h1]
  simp [show List.range 1 = [0] from rfl]

/-- Witness for the amended C4 at `stZero`, `proofEx`, `dZero`. -/
theorem padded_size_at_zero_vars_witness :
    (stZero.num_vars = 0) ∧
    (nextPowTwo stZero.num_vars = 1 ∧ dZero.fl.wL = [] ∧ dZero.fl.wR = [] ∧
      dZero.fl.wO = [] ∧ dZero.fl.wV.length = stZero.V.length ∧
      dZero.points = proofEx.A_I :: proofEx.A_O :: proofEx.S :: (stZero.V ++
        [proofEx.T_1, proofEx.T_3, proofEx.T_4, proofEx.T_5, proofEx.T_6] ++
        [some stZero.pc_gens.B, some stZero.pc_gens.B_blinding] ++
        [some (stZero.bp_gens.Gv 0)] ++ [some (stZero.bp_gens.Hv 0)] ++
        proofEx.ipp_proof.L_vec ++ proofEx.ipp_proof.R_vec)) :=
  ⟨rfl, padded_size_at_zero_vars oEx stZero proofEx dZero rfl (by decide)⟩

/-- C5 (counterexample): `commit` on a state with an empty transcript
produces a committed state whose transcript is still empty — the transition
absorbs nothing (it does not even receive the proof, so it cannot absorb
`A_I`, `A_O`, `S`; the source marks the intermediate-commitment send as
TBD). -/
theorem commit_absorbs_nothing_counterexample :
    csEx.commit.map (fun st => st.events) = Except.ok ([] : List (Event K K)) := rfl

/-- C5 (amended): the `commit` transition touches the transcript not at all
(with no callbacks registered it returns the data unchanged), and the
absorption of the proof-supplied `A_I`, `A_O`, `S` happens instead at the
start of `verify`. -/
theorem commit_transcript_unchanged_verify_absorbs (o : Oracle F G)
    (cs : VerifierCS F G) (hcb : cs.callbacks = []) :
    cs.commit = Except.ok cs.startCommit ∧ cs.startCommit.events = cs.events ∧
    ∀ (st : CommittedVerifierCS F G) (proof : R1CSProof F G) (d : VerifyData F G),
      st.verifyData o proof = some d →
      ∃ rest, d.finalEvents = st.events ++
        (Event.commitPoint labAI proof.A_I :: Event.commitPoint labAO proof.A_O ::
          Event.commitPoint labS proof.S :: rest) := by
  refine ⟨?_, rfl, fun st proof d hd => ?_⟩
  · unfold VerifierCS.commit runCallbacks
    rw [hcb]
    rfl
  · obtain ⟨-, -, -, -, -, -, -, -, -, -, -, hev⟩ := verifyData_some_elim o st proof d hd
    refine ⟨Event.challenge labY :: Event.challenge labZ ::
      Event.commitPoint labT1 proof.T_1 :: Event.commitPoint labT3 proof.T_3 ::
      Event.commitPoint labT4 proof.T_4 :: Event.commitPoint labT5 proof.T_5 ::
      Event.commitPoint labT6 proof.T_6 :: Event.challenge labX ::
      Event.commitScalar labTx proof.t_x ::
      Event.commitScalar labTxBlinding proof.t_x_blinding ::
      Event.commitScalar labEBlinding proof.e_blinding :: Event.challenge labW ::
      (ippAnswer o st proof).2, ?_⟩
    rw [hev]
    unfold eventsIpp eventsW eventsTx eventsX eventsT eventsZ eventsY eventsAIS
    simp [List.append_assoc]

/-- Witness for the amended C5 at `csEx` (and `stEx`, `proofEx`, `dEx` for
the `verify` part). -/
theorem commit_transcript_unchanged_verify_absorbs_witness :
    (csEx.callbacks = []) ∧
    (csEx.commit = Except.ok csEx.startCommit ∧ csEx.startCommit.events = csEx.events ∧
      ∀ (st : CommittedVerifierCS K K) (proof : R1CSProof K K) (d : VerifyData K K),
        st.verifyData oEx proof = some d →
        ∃ rest, d.finalEvents = st.events ++
          (Event.commitPoint labAI proof.A_I :: Event.commitPoint labAO proof.A_O ::
            Event.commitPoint labS proof.S :: rest)) :=
  ⟨rfl, commit_transcript_unchanged_verify_absorbs oEx csEx rfl⟩

/-- C7: within `verify` the transcript is consumed in exactly the order
`A_I, A_O, S` absorbs, challenges `y`, `z`, the five `T` absorbs, challenge
`x`, the three scalar absorbs, challenge `w`, then the inner-product
subverifier's own transcript events; the constraints are flattened with `z`,
the verification scalars `(u², u⁻², s)` come from the subverifier, and the
randomization scalar `r` is drawn from the RNG built on the transcript only
after all of that. -/
theorem verify_transcript_order (o : Oracle F G) (st : CommittedVerifierCS F G)
    (proof : R1CSProof F G) (d : VerifyData F G)
    (hcap : ¬ st.bp_gens.gens_capacity < nextPowTwo st.num_vars)
    (hd : st.verifyData o proof = some d) :
    st.verify o proof = some (verifyVerdict d, d.finalEvents) ∧
    d.finalEvents = (st.events ++
      [Event.commitPoint labAI proof.A_I, Event.commitPoint labAO proof.A_O,
        Event.commitPoint labS proof.S, Event.challenge labY, Event.challenge labZ,
        Event.commitPoint labT1 proof.T_1, Event.commitPoint labT3 proof.T_3,
        Event.commitPoint labT4 proof.T_4, Event.commitPoint labT5 proof.T_5,
        Event.commitPoint labT6 proof.T_6, Event.challenge labX,
        Event.commitScalar labTx proof.t_x,
        Event.commitScalar labTxBlinding proof.t_x_blinding,
        Event.commitScalar labEBlinding proof.e_blinding, Event.challenge labW]) ++
      (o.ippVS proof.ipp_proof (eventsW st proof)).2 ∧
    d.y = o.chal (eventsAIS st proof) labY ∧
    d.z = o.chal (eventsY st proof) labZ ∧
    d.x = o.chal (eventsT st proof) labX ∧
    d.w = o.chal (eventsTx st proof) labW ∧
    st.flattened_constraints d.z = some d.fl ∧
    (d.u_sq, d.u_inv_sq, d.s) = (o.ippVS proof.ipp_proof (eventsW st proof)).1 ∧
    d.r = o.rnd d.finalEvents := by
  obtain ⟨hfl, hy, hz, hx, hw, hr, hu, hui, hs, -, -, hev⟩ :=
    verifyData_some_elim o st proof d hd
  have hverify : st.verify o proof = some (verifyVerdict d, d.finalEvents) := by
    rw [verify_of_le_capacity o st proof hcap, hd]
    rfl
  have hfinal : d.finalEvents = (st.events ++
      [Event.commitPoint labAI proof.A_I, Event.commitPoint labAO proof.A_O,
        Event.commitPoint labS proof.S, Event.challenge labY, Event.challenge labZ,
        Event.commitPoint labT1 proof.T_1, Event.commitPoint labT3 proof.T_3,
        Event.commitPoint labT4 proof.T_4, Event.commitPoint labT5 proof.T_5,
        Event.commitPoint labT6 proof.T_6, Event.challenge labX,
        Event.commitScalar labTx proof.t_x,
        Event.commitScalar labTxBlinding proof.t_x_blinding,
        Event.commitScalar labEBlinding proof.e_blinding, Event.challenge labW]) ++
      (o.ippVS proof.ipp_proof (eventsW st proof)).2 := by
    rw [hev]
    unfold eventsIpp ippAnswer eventsW eventsTx eventsX eventsT eventsZ eventsY eventsAIS
    simp [List.append_assoc]
  refine ⟨hverify, hfinal, hy, hz, hx, hw, ?_, ?_, ?_⟩
  · rw [hz]
    exact hfl
  · rw [hu, hui, hs]
    rfl
  · rw [hr, hev]
    rfl

/-- Witness for C7 at `stEx`, `proofEx`, `dEx`. -/
theorem verify_transcript_order_witness :
    (¬ stEx.bp_gens.gens_capacity < nextPowTwo stEx.num_vars) ∧
    (stEx.verify oEx proofEx = some (verifyVerdict dEx, dEx.finalEvents) ∧
    dEx.finalEvents = (stEx.events ++
      [Event.commitPoint labAI proofEx.A_I, Event.commitPoint labAO proofEx.A_O,
        Event.commitPoint labS proofEx.S, Event.challenge labY, Event.challenge labZ,
        Event.commitPoint labT1 proofEx.T_1, Event.commitPoint labT3 proofEx.T_3,
        Event.commitPoint labT4 proofEx.T_4, Event.commitPoint labT5 proofEx.T_5,
        Event.commitPoint labT6 proofEx.T_6, Event.challenge labX,
        Event.commitScalar labTx proofEx.t_x,
        Event.commitScalar labTxBlinding proofEx.t_x_blinding,
        Event.commitScalar labEBlinding proofEx.e_blinding, Event.challenge labW]) ++
      (oEx.ippVS proofEx.ipp_proof (eventsW stEx proofEx)).2 ∧
    dEx.y = oEx.chal (eventsAIS stEx proofEx) labY ∧
    dEx.z = oEx.chal (eventsY stEx proofEx) labZ ∧
    dEx.x = oEx.chal (eventsT stEx proofEx) labX ∧
    dEx.w = oEx.chal (eventsTx stEx proofEx) labW ∧
    stEx.flattened_constraints dEx.z = some dEx.fl ∧
    (dEx.u_sq, dEx.u_inv_sq, dEx.s) =
      (oEx.ippVS proofEx.ipp_proof (eventsW stEx proofEx)).1 ∧
    dEx.r = oEx.rnd dEx.finalEvents) :=
  ⟨by decide, verify_transcript_order oEx stEx proofEx dEx (by decide) (by decide)⟩


/-- C8: `after_commitment` on the pre-commitment state registers the callback
and returns `Ok`; the `commit` transition runs the registered callbacks
exactly once each, in registration order (running `fs ++ gs` is running `fs`
and then feeding the evolving committed state through `gs`), aborting with
the callback's error as soon as one fails; and `after_commitment` on the
committed state executes the callback synchronously on itself. -/
theorem after_commitment_registration_and_drain :
    (∀ (cs : VerifierCS F G)
      (f : CommittedVerifierCS F G → Except R1CSError (CommittedVerifierCS F G)),
      cs.after_commitment f = Except.ok { cs with callbacks := cs.callbacks ++ [f] }) ∧
    (∀ (cs : VerifierCS F G)
      (fs gs : List (CommittedVerifierCS F G → Except R1CSError (CommittedVerifierCS F G))),
      VerifierCS.commit { cs with callbacks := fs ++ gs } =
        (VerifierCS.commit { cs with callbacks := fs }) >>= runCallbacks gs) ∧
    (∀ (cs : VerifierCS F G)
      (fs : List (CommittedVerifierCS F G → Except R1CSError (CommittedVerifierCS F G)))
      (g : CommittedVerifierCS F G → Except R1CSError (CommittedVerifierCS F G))
      (gs : List (CommittedVerifierCS F G → Except R1CSError (CommittedVerifierCS F G)))
      (st : CommittedVerifierCS F G) (e : R1CSError),
      runCallbacks fs cs.startCommit = Except.ok st → g st = Except.error e →
      VerifierCS.commit { cs with callbacks := fs ++ g :: gs } = Except.error e) ∧
    (∀ (st : CommittedVerifierCS F G)
      (f : CommittedVerifierCS F G → Except R1CSError (CommittedVerifierCS F G)),
      st.after_commitment f = f st) := by
  have hsplit : ∀ (cs : VerifierCS F G)
      (fs gs : List (CommittedVerifierCS F G → Except R1CSError (CommittedVerifierCS F G))),
      VerifierCS.commit { cs with callbacks := fs ++ gs } =
        (VerifierCS.commit { cs with callbacks := fs }) >>= runCallbacks gs := by
    intro cs fs gs
    unfold VerifierCS.commit runCallbacks
    exact List.foldlM_append _ _ fs gs
  refine ⟨fun cs f => rfl, hsplit, fun cs fs g gs st e h1 h2 => ?_, fun st f => rfl⟩
  rw [hsplit cs fs (g :: gs)]
  have hfs : VerifierCS.commit { cs with callbacks := fs } = Except.ok st := h1
  rw [hfs]
  show runCallbacks (g :: gs) st = Except.error e
  unfold runCallbacks
  rw [List.foldlM_cons]
  show g st >>= _ = Except.error e
  rw [h2]
  rfl

/-- Witness for C8: a succeeding then a failing callback; the drain surfaces
the failing callback's error. -/
theorem after_commitment_registration_and_drain_witness :
    (runCallbacks [cbOk] csEx.startCommit = Except.ok csEx.startCommit) ∧
    (cbFail csEx.startCommit = Except.error R1CSError.GadgetError) ∧
    VerifierCS.commit { csEx with callbacks := [cbOk, cbFail] } =
      Except.error R1CSError.GadgetError :=
  ⟨rfl, rfl,
    (@after_commitment_registration_and_drain K K _ _ _).2.2.1 csEx [cbOk] cbFail []
      csEx.startCommit R1CSError.GadgetError rfl rfl⟩

/-- C9: across every sequence of API operations (in either state, including
operations performed inside deferred callbacks) `num_vars` never decreases:
`assign_multiplier` increments it by exactly one, every other operation
leaves it unchanged, program interpretation and the commit transition only
grow it; and the commitment list `V` is fixed at construction by `new` (with
dense `Committed` indices `0 … |V|−1`) and never modified afterwards. -/
theorem num_vars_monotone_and_V_fixed (o : Oracle F G) :
    (∀ (cs : VerifierCS F G) (l r out : Option F),
      (cs.assign_multiplier l r out).2.num_vars = cs.num_vars + 1 ∧
      (cs.assign_multiplier l r out).2.V = cs.V) ∧
    (∀ (st : CommittedVerifierCS F G) (l r out : Option F),
      (st.assign_multiplier l r out).2.num_vars = st.num_vars + 1 ∧
      (st.assign_multiplier l r out).2.V = st.V) ∧
    (∀ (cs : VerifierCS F G) (c : Constraint F),
      (cs.add_constraint c).num_vars = cs.num_vars ∧ (cs.add_constraint c).V = cs.V) ∧
    (∀ (st : CommittedVerifierCS F G) (c : Constraint F),
      (st.add_constraint c).num_vars = st.num_vars ∧ (st.add_constraint c).V = st.V) ∧
    (∀ (cs : VerifierCS F G)
      (f : CommittedVerifierCS F G → Except R1CSError (CommittedVerifierCS F G)),
      ∃ cs', cs.after_commitment f = Except.ok cs' ∧
        cs'.num_vars = cs.num_vars ∧ cs'.V = cs.V) ∧
    (∀ (st : CommittedVerifierCS F G) (label : String),
      (CommittedVerifierCS.challenge_scalar o st label).2.num_vars = st.num_vars ∧
      (CommittedVerifierCS.challenge_scalar o st label).2.V = st.V) ∧
    (∀ (p : PostProg F) (st : CommittedVerifierCS F G),
      (runPostProg o p st).V = st.V ∧ st.num_vars ≤ (runPostProg o p st).num_vars) ∧
    (∀ (pre : List (PreOp F)) (cs : VerifierCS F G),
      (runPreProg o pre cs).V = cs.V ∧ cs.num_vars ≤ (runPreProg o pre cs).num_vars) ∧
    (∀ (cs : VerifierCS F G) (progs : List (PostProg F)),
      ∃ st', VerifierCS.commit { cs with callbacks := progs.map (progCallback o) } =
        Except.ok st' ∧ st'.V = cs.V ∧ cs.num_vars ≤ st'.num_vars) ∧
    (∀ (bp : BulletproofGens G) (pc : PedersenGens G) (tr : List (Event F G))
      (comms : List (Option G)),
      (VerifierCS.new bp pc tr comms).1.V = comms ∧
      (VerifierCS.new bp pc tr comms).1.num_vars = 0 ∧
      (VerifierCS.new bp pc tr comms).2 = (List.range comms.length).map
        (fun i => ({ index := VariableIndex.Committed i, assignment := none } :
          Variable F))) := by
  refine ⟨fun cs l r out => ⟨rfl, rfl⟩, fun st l r out => ⟨rfl, rfl⟩,
    fun cs c => ⟨rfl, rfl⟩, fun st c => ⟨rfl, rfl⟩,
    fun cs f => ⟨{ cs with callbacks := cs.callbacks ++ [f] }, rfl, rfl, rfl⟩,
    fun st label => ⟨rfl, rfl⟩,
    runPostProg_preserves o, runPreProg_preserves o, fun cs progs => ?_,
    fun bp pc tr comms => ⟨rfl, rfl, rfl⟩⟩
  refine ⟨progs.foldl (fun s p => runPostProg o p s) cs.startCommit, ?_, ?_, ?_⟩
  · unfold VerifierCS.commit
    exact runCallbacks_progs o progs _
  · exact (foldPosts_preserves o progs cs.startCommit).1
  · exact (foldPosts_preserves o progs cs.startCommit).2

/-- C10: for a constraint system built only through the public API, where
every stored constraint references only variables already returned by `new`
or `assign_multiplier` (the scope checks below), every multiplier index is
below `num_vars` and every `Committed` index below `|V|` when
`flattened_constraints` runs, so flattening never takes the out-of-bounds
panic branch. -/
theorem api_built_indices_in_bounds (o : Oracle F G) (bp : BulletproofGens G)
    (pc : PedersenGens G) (tr : List (Event F G)) (comms : List (Option G))
    (pre : List (PreOp F)) (post : PostProg F) (k1 k2 k3 : ℕ)
    (qs : List (PostProg F))
    (h1 : preScoped pre 0 comms.length = some (k1, qs))
    (h2 : scopedList qs k1 comms.length = some k2)
    (h3 : post.scopedFrom k2 comms.length = some k3) :
    ∃ st, buildCommitted o bp pc tr comms pre post = Except.ok st ∧
      st.num_vars = k3 ∧ st.V = comms ∧
      (∀ c ∈ st.constraints, c.inScope st.num_vars st.V.length = true) ∧
      ∀ z, (st.flattened_constraints z).isSome := by
  set cs0 := (VerifierCS.new bp pc tr comms).1 with hcs0
  have hV0 : cs0.V.length = comms.length := rfl
  have hn0 : cs0.num_vars = 0 := rfl
  obtain ⟨e1, e2, e3, e4⟩ := runPreProg_scoped o comms.length pre cs0 k1 qs hV0
    (by rw [hn0]; exact h1) (by intro c hc; cases hc)
  set cs1 := runPreProg o pre cs0 with hcs1
  have hVstart : cs1.startCommit.V.length = comms.length := by
    show cs1.V.length = comms.length
    rw [e2]
    exact hV0
  have hnstart : cs1.startCommit.num_vars = k1 := e1
  have hBstart : ∀ c ∈ cs1.startCommit.constraints,
      c.inScope cs1.startCommit.num_vars comms.length = true := by
    intro c hc
    rw [hnstart]
    exact e4 c hc
  obtain ⟨st2, f1, f2, f3, f4⟩ := runCallbacks_scoped o comms.length qs cs1.startCommit
    k2 hVstart (by rw [hnstart]; exact h2) hBstart
  have hcommit : cs1.commit = Except.ok st2 := by
    unfold VerifierCS.commit
    rw [e3]
    show runCallbacks ([] ++ qs.map (progCallback o)) cs1.startCommit = Except.ok st2
    rw [List.nil_append]
    exact f1
  have hV2 : st2.V.length = comms.length := by
    rw [f3]
    exact hVstart
  obtain ⟨g1, g2, g3⟩ := runPostProg_scoped o comms.length post st2 k3 hV2
    (by rw [f2]; exact h3) (by rw [f2]; exact f4)
  set st3 := runPostProg o post st2 with hst3
  have hV3 : st3.V = comms := by
    rw [g2, f3]
    show cs1.V = comms
    rw [e2]
    rfl
  have hB3 : ∀ c ∈ st3.constraints, c.inScope st3.num_vars st3.V.length = true := by
    intro c hc
    rw [g1, hV3]
    exact g3 c hc
  refine ⟨st3, ?_, g1, hV3, hB3, ?_⟩
  · unfold buildCommitted
    rw [← hcs0, ← hcs1, hcommit]
    rfl
  · intro z
    obtain ⟨fl, hfl, -⟩ := flattened_constraints_spec st3 z hB3
    rw [hfl]
    rfl

/-- Witness for C10: a concrete pipeline with one pre-commitment multiplier
and constraint, one deferred program, and one committed-state program. -/
theorem api_built_indices_in_bounds_witness :
    (preScoped preEx 0 ([some (5 : K)] : List (Option K)).length = some (1, [postQEx])) ∧
    (scopedList [postQEx] 1 ([some (5 : K)] : List (Option K)).length = some 2) ∧
    (PostProg.scopedFrom postEx 2 ([some (5 : K)] : List (Option K)).length = some 2) ∧
    ∃ st, buildCommitted oEx bpEx pcEx [] [some (5 : K)] preEx postEx = Except.ok st ∧
      st.num_vars = 2 ∧ st.V = [some (5 : K)] ∧
      (∀ c ∈ st.constraints, c.inScope st.num_vars st.V.length = true) ∧
      ∀ z, (st.flattened_constraints z).isSome :=
  ⟨rfl, rfl, rfl,
    api_built_indices_in_bounds oEx bpEx pcEx [] [some (5 : K)] preEx postEx 1 2 2
      [postQEx] rfl rfl rfl⟩

/-- C2: in `verify` the mega-check scalars are computed exactly as the spec
states: `yneg_wR[i] = wR[i]·yInv[i]` for `i < n` and `0` on the pad,
`delta = ⟨yneg_wR[0..n], wL⟩`, `g_scalar[i] = x·yneg_wR[i] − a·s[i]` and
`h_scalar[i] = yInv[i]·(x·wL'[i] + wO'[i] − b·s[n'−1−i]) − 1` for `i < n'`,
`T`-scalars `(r·x, r·x²·x, r·x²·x², r·x²·x³, r·x²·x⁴)`, the stated `B` and
`B_blinding` scalars, `r·x²·wV[i]` on `V_i`, and `x, x², x³` on
`A_I, A_O, S` (stated under the spec's `|s| = n'` guarantee for the
inner-product scalars). -/
theorem megacheck_scalar_formulas (o : Oracle F G) (st : CommittedVerifierCS F G)
    (proof : R1CSProof F G) (d : VerifyData F G)
    (hd : st.verifyData o proof = some d)
    (hslen : d.s.length = nextPowTwo st.num_vars) :
    d.scalars =
      d.x :: d.x ^ 2 :: d.x ^ 3 ::
      (d.fl.wV.map (fun v => d.r * d.x ^ 2 * v)
        ++ [d.r * d.x, d.r * d.x ^ 2 * d.x, d.r * d.x ^ 2 * d.x ^ 2,
            d.r * d.x ^ 2 * d.x ^ 3, d.r * d.x ^ 2 * d.x ^ 4]
        ++ [d.w * (proof.t_x - proof.ipp_proof.a * proof.ipp_proof.b) +
              d.r * (d.x ^ 2 * (d.fl.wc +
                ∑ i ∈ Finset.range st.num_vars,
                  d.fl.wR.getD i 0 * d.y⁻¹ ^ i * d.fl.wL.getD i 0) - proof.t_x),
            -proof.e_blinding - d.r * proof.t_x_blinding]
        ++ (List.range (nextPowTwo st.num_vars)).map (fun i =>
              d.x * (if i < st.num_vars then d.fl.wR.getD i 0 * d.y⁻¹ ^ i else 0) -
                proof.ipp_proof.a * d.s.getD i 0)
        ++ (List.range (nextPowTwo st.num_vars)).map (fun i =>
              d.y⁻¹ ^ i * (d.x * d.fl.wL.getD i 0 + d.fl.wO.getD i 0 -
                proof.ipp_proof.b * d.s.getD (nextPowTwo st.num_vars - 1 - i) 0) - 1)
        ++ d.u_sq ++ d.u_inv_sq) := by
  obtain ⟨hfl, hy, hz, hx, hw, hr, hu, hui, hsS, hscal, -, -⟩ :=
    verifyData_some_elim o st proof d hd
  obtain ⟨hL, hR, hO, -⟩ := flattened_constraints_some_lengths st _ d.fl hfl
  rw [hscal]
  simp only [megaScalars]
  rw [hx, hy, hw, hr, hu, hui, hsS]
  rw [hsS] at hslen
  set n := st.num_vars with hn
  set N := nextPowTwo n with hNd
  set x := xChal o st proof with hxd
  set u := (yChal o st proof)⁻¹ with hud
  set r := rSample o st proof with hrd
  set w := wChal o st proof with hwd
  set s := ippS o st proof with hsd
  set a := proof.ipp_proof.a with had
  set b := proof.ipp_proof.b with hbd
  set wL := d.fl.wL with hwL
  set wR := d.fl.wR with hwR
  set wO := d.fl.wO with hwO
  have hnN : n ≤ N := le_nextPowTwo n
  have hyneg : List.zipWith (fun wRi exp_y_inv => wRi * exp_y_inv) wR
      ((List.range N).map (fun i => u ^ i)) ++ List.replicate (N - n) 0 =
      (List.range N).map (fun i => if i < n then wR.getD i 0 * u ^ i else 0) := by
    rw [zipWith_eq_map_range (fun wRi exp_y_inv => wRi * exp_y_inv) 0 0 wR
      ((List.range N).map (fun i => u ^ i))]
    rw [show min wR.length ((List.range N).map (fun i => u ^ i)).length = n from by
      simp only [List.length_map, List.length_range, hR]
      omega]
    rw [map_range_append_replicate
      (fun i => wR.getD i 0 * ((List.range N).map (fun i => u ^ i)).getD i 0) 0 n N hnN]
    refine List.map_congr_left fun i hi => ?_
    rw [List.mem_range] at hi
    by_cases hin : i < n
    · rw [if_pos hin, if_pos hin, getD_map_range, if_pos hi]
    · rw [if_neg hin, if_neg hin]
  rw [hyneg]
  have htake : ((List.range N).map (fun i => if i < n then wR.getD i 0 * u ^ i else 0)).take n =
      (List.range n).map (fun i => if i < n then wR.getD i 0 * u ^ i else 0) := by
    rw [← List.map_take, List.take_range, min_eq_left hnN]
  have hdelta : innerProduct
      ((List.range n).map (fun i => if i < n then wR.getD i 0 * u ^ i else 0)) wL =
      ∑ i ∈ Finset.range n, wR.getD i 0 * u ^ i * wL.getD i 0 := by
    unfold innerProduct
    rw [zipWith_eq_map_range (fun p q => p * q) 0 0]
    rw [show min ((List.range n).map
        (fun i => if i < n then wR.getD i 0 * u ^ i else 0)).length wL.length = n from by
      simp only [List.length_map, List.length_range, hL]
      omega]
    rw [sum_map_range]
    refine Finset.sum_congr rfl fun i hi => ?_
    rw [Finset.mem_range] at hi
    rw [getD_map_range, if_pos hi, if_pos hi]
  rw [htake, hdelta]
  have hstake : s.take N = s := by
    rw [← hslen]
    exact List.take_length s
  have hg : List.zipWith (fun yneg_wRi s_i => x * yneg_wRi - a * s_i)
      ((List.range N).map (fun i => if i < n then wR.getD i 0 * u ^ i else 0)) (s.take N) =
      (List.range N).map
        (fun i => x * (if i < n then wR.getD i 0 * u ^ i else 0) - a * s.getD i 0) := by
    rw [hstake]
    rw [zipWith_eq_map_range (fun yneg_wRi s_i => x * yneg_wRi - a * s_i) 0 0]
    rw [show min ((List.range N).map
        (fun i => if i < n then wR.getD i 0 * u ^ i else 0)).length s.length = N from by
      simp only [List.length_map, List.length_range, hslen]
      omega]
    refine List.map_congr_left fun i hi => ?_
    rw [List.mem_range] at hi
    rw [getD_map_range, if_pos hi]
  rw [hg]
  have hrev : s.reverse.take N = s.reverse := by
    rw [show N = s.reverse.length from by rw [List.length_reverse, hslen]]
    exact List.take_length s.reverse
  have hh : List.zipWith (fun p q => p.1 * (x * q.1 + q.2 - b * p.2) - 1)
      (((List.range N).map (fun i => u ^ i)).zip (s.reverse.take N))
      ((wL ++ List.replicate (N - n) 0).zip (wO ++ List.replicate (N - n) 0)) =
      (List.range N).map (fun i =>
        u ^ i * (x * wL.getD i 0 + wO.getD i 0 - b * s.getD (N - 1 - i) 0) - 1) := by
    rw [hrev, List.zip_eq_zipWith, List.zip_eq_zipWith]
    rw [zipWith_eq_map_range Prod.mk 0 0 ((List.range N).map (fun i => u ^ i)) s.reverse]
    rw [zipWith_eq_map_range Prod.mk 0 0 (wL ++ List.replicate (N - n) 0)
      (wO ++ List.replicate (N - n) 0)]
    simp only [List.length_map, List.length_range, List.length_reverse, hslen,
      List.length_append, List.length_replicate, hL, hO, Nat.add_sub_cancel' hnN, min_self]
    rw [List.zipWith_map_left, List.zipWith_map_right, List.zipWith_same]
    refine List.map_congr_left fun i hi => ?_
    rw [List.mem_range] at hi
    simp only
    rw [getD_map_range, if_pos hi]
    rw [getD_reverse s i 0 (by rw [hslen]; exact hi), hslen]
    rw [getD_append_replicate, getD_append_replicate]
  rw [hh]
  have hwv : List.map (fun wVi => wVi * (r * (x * x))) d.fl.wV =
      List.map (fun v => r * x ^ 2 * v) d.fl.wV :=
    List.map_congr_left fun v _ => by ring
  rw [hwv]
  rw [show r * (x * x) * (x * x) * (x * x) = r * x ^ 2 * x ^ 4 from by ring]
  rw [show r * (x * x) * x = r * x ^ 2 * x from by ring]
  rw [show r * (x * x) * (x * (x * x)) = r * x ^ 2 * x ^ 3 from by ring]
  rw [show r * (x * x) * (x * x) = r * x ^ 2 * x ^ 2 from by ring]
  rw [show x * x * (d.fl.wc + ∑ i ∈ Finset.range n, wR.getD i 0 * u ^ i * wL.getD i 0) =
    x ^ 2 * (d.fl.wc + ∑ i ∈ Finset.range n, wR.getD i 0 * u ^ i * wL.getD i 0) from by ring]
  rw [show x * x = x ^ 2 from by ring]
  rw [show x * x ^ 2 = x ^ 3 from by ring]

/-- Witness for C2 at `stEx`, `proofEx`, `dEx`. -/
theorem megacheck_scalar_formulas_witness :
    (CommittedVerifierCS.verifyData oEx stEx proofEx = some dEx ∧
      dEx.s.length = nextPowTwo stEx.num_vars) ∧
    dEx.scalars =
      dEx.x :: dEx.x ^ 2 :: dEx.x ^ 3 ::
      (dEx.fl.wV.map (fun v => dEx.r * dEx.x ^ 2 * v)
        ++ [dEx.r * dEx.x, dEx.r * dEx.x ^ 2 * dEx.x, dEx.r * dEx.x ^ 2 * dEx.x ^ 2,
            dEx.r * dEx.x ^ 2 * dEx.x ^ 3, dEx.r * dEx.x ^ 2 * dEx.x ^ 4]
        ++ [dEx.w * (proofEx.t_x - proofEx.ipp_proof.a * proofEx.ipp_proof.b) +
              dEx.r * (dEx.x ^ 2 * (dEx.fl.wc +
                ∑ i ∈ Finset.range stEx.num_vars,
                  dEx.fl.wR.getD i 0 * dEx.y⁻¹ ^ i * dEx.fl.wL.getD i 0) - proofEx.t_x),
            -proofEx.e_blinding - dEx.r * proofEx.t_x_blinding]
        ++ (List.range (nextPowTwo stEx.num_vars)).map (fun i =>
              dEx.x * (if i < stEx.num_vars then dEx.fl.wR.getD i 0 * dEx.y⁻¹ ^ i else 0) -
                proofEx.ipp_proof.a * dEx.s.getD i 0)
        ++ (List.range (nextPowTwo stEx.num_vars)).map (fun i =>
              dEx.y⁻¹ ^ i * (dEx.x * dEx.fl.wL.getD i 0 + dEx.fl.wO.getD i 0 -
                proofEx.ipp_proof.b * dEx.s.getD (nextPowTwo stEx.num_vars - 1 - i) 0) - 1)
        ++ dEx.u_sq ++ dEx.u_inv_sq) :=
  ⟨⟨by decide, by decide⟩,
    megacheck_scalar_formulas oEx stEx proofEx dEx (by decide) (by decide)⟩

end Claims







end BulletproofsVerifier
